import Mathlib

/-!
Verification development for the Mallo chess core
(src/game/chessGame.js, src/apps/chess/app.js,
src/apps/chess/game/stockfishEngine.js).

The rules engine is embedded shallowly: the mutable 64-slot board becomes a
`List (Option Piece)`, in-place mutation becomes explicit state passing, and
the one `throw` in `applyMove` becomes an `Option` result.  Rows and columns
are `Int` because the JavaScript move generation freely forms negative
coordinates before the `isOnBoard` guard.
-/

namespace Mallo

/-- Piece kinds, from the PieceType table (chessGame.js:1-8). -/
inductive PieceType where
  | pawn | knight | bishop | rook | queen | king
deriving DecidableEq, Repr

/-- The two sides (chessGame.js:10-13). -/
inductive PieceColor where
  | white | black
deriving DecidableEq, Repr

/-- The opposing color; the source writes this out inline at each use site. -/
def PieceColor.opposite : PieceColor → PieceColor
  | .white => .black
  | .black => .white

/-- A piece record `{type,color,hasMoved,id}` (chessGame.js:89-94). -/
structure Piece where
  type : PieceType
  color : PieceColor
  hasMoved : Bool
  id : Nat
deriving DecidableEq, Repr

/-- The 8x8 board: 64 slots, each `null` or a piece (chessGame.js:69). -/
abbrev Board := List (Option Piece)

/-- Reading `this.board[index]`; out of range reads give `undefined`,
modelled as `none`. -/
def boardGet (b : Board) (i : Nat) : Option Piece :=
  b.getD i none

/-- Writing `this.board[index] = v`. -/
def boardSet (b : Board) (i : Nat) (v : Option Piece) : Board :=
  b.set i v

/-- `indexToCoord(index).row` (chessGame.js:46-48). -/
def indexRow (i : Nat) : Int := (i : Int) / 8

/-- `indexToCoord(index).col` (chessGame.js:46-48). -/
def indexCol (i : Nat) : Int := (i : Int) % 8

/-- `coordToIndex(row, col)` (chessGame.js:50-52); the result is only used
under `isOnBoard` guards, where it is a genuine board index. -/
def coordToIndex (row col : Int) : Nat := (row * 8 + col).toNat

/-- `isOnBoard(row, col)` (chessGame.js:54-56). -/
def isOnBoard (row col : Int) : Bool :=
  decide (0 ≤ row ∧ row < 8 ∧ 0 ≤ col ∧ col < 8)

/-! Board update lemmas. -/

/-! Move candidates. -/

/-- Which side a castle move belongs to (`'king'` / `'queen'` strings in the
source, chessGame.js:503,511). -/
inductive CastleSide where
  | king | queen
deriving DecidableEq, Repr

/-- The rook displacement carried by a castling candidate
(chessGame.js:566-570). -/
structure CastleMove where
  side : CastleSide
  rookFrom : Nat
  rookTo : Nat
deriving DecidableEq, Repr

/-- A move candidate as produced by `generatePseudoMoves`; optional fields of
the JavaScript object become `Option`/`Bool` with the absent value as
default. -/
structure MoveCand where
  fromSq : Nat
  toSq : Nat
  promotion : Option PieceType := none
  castle : Option CastleMove := none
  enPassant : Bool := false
  enPassantCapture : Option Nat := none
deriving DecidableEq, Repr

/-- The en-passant eligibility record `{index, captureColor}`
(chessGame.js:336). -/
structure EPTarget where
  index : Nat
  captureColor : PieceColor
deriving DecidableEq, Repr

/-! Attack detection (chessGame.js:586-682). -/

def knightOffsets : List (Int × Int) :=
  [(-2, -1), (-2, 1), (-1, -2), (-1, 2), (1, -2), (1, 2), (2, -1), (2, 1)]

def diagonalDirs : List (Int × Int) := [(1, 1), (1, -1), (-1, 1), (-1, -1)]

def orthDirs : List (Int × Int) := [(1, 0), (-1, 0), (0, 1), (0, -1)]

/-- The 8 king-adjacency offsets in the nested-loop order of the source. -/
def kingOffsets : List (Int × Int) :=
  [(-1, -1), (-1, 0), (-1, 1), (0, -1), (0, 1), (1, -1), (1, 0), (1, 1)]

/-- First piece met walking a ray; embeds the `while` loops of
`isSquareAttacked` (fuel 8 covers the at most 7 on-board steps). -/
def rayFirst (b : Board) : Int → Int → Int → Int → Nat → Option Piece
  | _, _, _, _, 0 => none
  | row, col, dr, dc, fuel + 1 =>
    let nr := row + dr
    let nc := col + dc
    if isOnBoard nr nc then
      match boardGet b (coordToIndex nr nc) with
      | some p => some p
      | none => rayFirst b nr nc dr dc fuel
    else none

/-- `isSquareAttacked(index, attackerColor)` (chessGame.js:586-682); the
early returns of the source collapse into a disjunction of the five tests. -/
def isSquareAttacked (b : Board) (index : Nat) (attackerColor : PieceColor) : Bool :=
  let row := indexRow index
  let col := indexCol index
  let pawnRow := row + (if attackerColor = .white then 1 else -1)
  let pawnHit := [(-1 : Int), 1].any fun offset =>
    isOnBoard pawnRow (col + offset) &&
      match boardGet b (coordToIndex pawnRow (col + offset)) with
      | some p => p.color = attackerColor && p.type = .pawn
      | none => false
  let knightHit := knightOffsets.any fun d =>
    isOnBoard (row + d.1) (col + d.2) &&
      match boardGet b (coordToIndex (row + d.1) (col + d.2)) with
      | some p => p.color = attackerColor && p.type = .knight
      | none => false
  let diagHit := diagonalDirs.any fun d =>
    match rayFirst b row col d.1 d.2 8 with
    | some p => p.color = attackerColor && (p.type = .bishop || p.type = .queen)
    | none => false
  let orthHit := orthDirs.any fun d =>
    match rayFirst b row col d.1 d.2 8 with
    | some p => p.color = attackerColor && (p.type = .rook || p.type = .queen)
    | none => false
  let kingHit := kingOffsets.any fun d =>
    isOnBoard (row + d.1) (col + d.2) &&
      match boardGet b (coordToIndex (row + d.1) (col + d.2)) with
      | some p => p.color = attackerColor && p.type = .king
      | none => false
  pawnHit || knightHit || diagHit || orthHit || kingHit

/-- `isKingInCheck(color)` (chessGame.js:575-584); a missing king yields
`false`. -/
def isKingInCheck (b : Board) (color : PieceColor) : Bool :=
  match b.findIdx? (fun slot =>
      match slot with
      | some p => p.type = .king && p.color = color
      | none => false) with
  | some kingIndex => isSquareAttacked b kingIndex color.opposite
  | none => false

/-! Pseudo-legal move generation (chessGame.js:339-573). -/

/-- Queen promotion is forced when the landing row is a back rank
(chessGame.js:349,363). -/
def pawnPromoRow (targetRow : Int) : Option PieceType :=
  if targetRow = 0 ∨ targetRow = 7 then some .queen else none

/-- Pawn pushes: single forward, and the double step from the start row
(chessGame.js:347-355). -/
def pawnForward (b : Board) (i : Nat) (row col dir startRow : Int) : List MoveCand :=
  if isOnBoard (row + dir) col && (boardGet b (coordToIndex (row + dir) col)).isNone then
    { fromSq := i, toSq := coordToIndex (row + dir) col,
      promotion := pawnPromoRow (row + dir) } ::
    (if row = startRow && isOnBoard (row + 2 * dir) col &&
        (boardGet b (coordToIndex (row + 2 * dir) col)).isNone then
      [{ fromSq := i, toSq := coordToIndex (row + 2 * dir) col }]
    else [])
  else []

/-- The en-passant test reached when the diagonal square is empty or
friendly (chessGame.js:372-391). -/
def pawnEp (b : Board) (ep : Option EPTarget) (i : Nat) (piece : Piece)
    (row : Int) (tc : Int) (ti : Nat) : List MoveCand :=
  match ep with
  | some e =>
    if e.captureColor = piece.color && e.index = ti then
      let captureIndex := coordToIndex row tc
      match boardGet b captureIndex with
      | some capturedPawn =>
        if capturedPawn.color ≠ piece.color && capturedPawn.type = .pawn then
          [{ fromSq := i, toSq := ti, enPassant := true,
             enPassantCapture := some captureIndex }]
        else []
      | none => []
    else []
  | none => []

/-- One diagonal direction of the pawn capture loop
(chessGame.js:356-392). -/
def pawnSide (b : Board) (ep : Option EPTarget) (i : Nat) (piece : Piece)
    (row col dir offset : Int) : List MoveCand :=
  let targetRow := row + dir
  let targetCol := col + offset
  if isOnBoard targetRow targetCol then
    let targetIndex := coordToIndex targetRow targetCol
    match boardGet b targetIndex with
    | some targetPiece =>
      if targetPiece.color ≠ piece.color then
        [{ fromSq := i, toSq := targetIndex, promotion := pawnPromoRow targetRow }]
      else pawnEp b ep i piece row targetCol targetIndex
    | none => pawnEp b ep i piece row targetCol targetIndex
  else []

/-- Fixed-offset movers (knight and the king's adjacent squares,
chessGame.js:395-415,448-460). -/
def stepMoves (b : Board) (i : Nat) (piece : Piece) (row col : Int)
    (offsets : List (Int × Int)) : List MoveCand :=
  offsets.flatMap fun d =>
    let nr := row + d.1
    let nc := col + d.2
    if isOnBoard nr nc then
      match boardGet b (coordToIndex nr nc) with
      | none => [{ fromSq := i, toSq := coordToIndex nr nc }]
      | some target =>
        if target.color ≠ piece.color then
          [{ fromSq := i, toSq := coordToIndex nr nc }]
        else []
    else []

/-- One ray of `generateSlidingMoves` (chessGame.js:471-490); fuel 8 covers
the at most 7 on-board steps of the `while` loop. -/
def slideRay (b : Board) (i : Nat) (piece : Piece) :
    Int → Int → Int → Int → Nat → List MoveCand
  | _, _, _, _, 0 => []
  | row, col, dr, dc, fuel + 1 =>
    let nr := row + dr
    let nc := col + dc
    if isOnBoard nr nc then
      match boardGet b (coordToIndex nr nc) with
      | none =>
        { fromSq := i, toSq := coordToIndex nr nc } ::
          slideRay b i piece nr nc dr dc fuel
      | some targetPiece =>
        if targetPiece.color ≠ piece.color then
          [{ fromSq := i, toSq := coordToIndex nr nc }]
        else []
    else []

/-- `generateSlidingMoves` over a direction set (chessGame.js:471-490). -/
def slidingMoves (b : Board) (i : Nat) (piece : Piece) (row col : Int)
    (directions : List (Int × Int)) : List MoveCand :=
  directions.flatMap fun d => slideRay b i piece row col d.1 d.2 8

/-- The queen walks orthogonals before diagonals (chessGame.js:436-445). -/
def queenDirs : List (Int × Int) :=
  [(1, 0), (-1, 0), (0, 1), (0, -1), (1, 1), (1, -1), (-1, 1), (-1, -1)]

/-- One castling option row of the table at chessGame.js:501-518. -/
structure CastleOption where
  side : CastleSide
  rookCol : Int
  path : List Int
  kingPath : List Int
  finalCol : Int
  rookTargetCol : Int

/-- `generateCastlingMoves` (chessGame.js:492-573). -/
def generateCastlingMoves (b : Board) (i : Nat) (piece : Piece)
    (row col : Int) : List MoveCand :=
  if piece.hasMoved then []
  else
    let opponentColor := piece.color.opposite
    if isSquareAttacked b i opponentColor then []
    else
      let options : List CastleOption :=
        [{ side := .king, rookCol := 7, path := [col + 1, col + 2],
           kingPath := [col + 1, col + 2], finalCol := col + 2,
           rookTargetCol := col + 1 },
         { side := .queen, rookCol := 0, path := [col - 1, col - 2, col - 3],
           kingPath := [col - 1, col - 2], finalCol := col - 2,
           rookTargetCol := col - 1 }]
      options.flatMap fun o =>
        if o.finalCol < 0 ∨ 7 < o.finalCol then []
        else
          let rookIndex := coordToIndex row o.rookCol
          match boardGet b rookIndex with
          | none => []
          | some rook =>
            if rook.type = .rook && rook.color = piece.color && !rook.hasMoved then
              if o.path.all (fun pathCol =>
                  isOnBoard row pathCol &&
                    (boardGet b (coordToIndex row pathCol)).isNone) then
                if o.kingPath.all (fun kingCol =>
                    isOnBoard row kingCol &&
                      !isSquareAttacked b (coordToIndex row kingCol) opponentColor) then
                  [{ fromSq := i, toSq := coordToIndex row o.finalCol,
                     castle := some { side := o.side, rookFrom := rookIndex,
                                      rookTo := coordToIndex row o.rookTargetCol } }]
                else []
              else []
            else []

/-- `generatePseudoMoves(index, piece)` (chessGame.js:339-469). -/
def generatePseudoMoves (b : Board) (ep : Option EPTarget) (i : Nat)
    (piece : Piece) : List MoveCand :=
  let row := indexRow i
  let col := indexCol i
  match piece.type with
  | .pawn =>
    let dir : Int := if piece.color = .white then -1 else 1
    let startRow : Int := if piece.color = .white then 6 else 1
    pawnForward b i row col dir startRow ++
      pawnSide b ep i piece row col dir (-1) ++
      pawnSide b ep i piece row col dir 1
  | .knight => stepMoves b i piece row col knightOffsets
  | .bishop => slidingMoves b i piece row col diagonalDirs
  | .rook => slidingMoves b i piece row col orthDirs
  | .queen => slidingMoves b i piece row col queenDirs
  | .king =>
    stepMoves b i piece row col kingOffsets ++
      generateCastlingMoves b i piece row col

/-! Applying and undoing moves (chessGame.js:250-322). -/

/-- The rook part of a move-application record (chessGame.js:273-278);
`piece` holds the rook value as mutated by the apply step. -/
structure RookMoveState where
  piece : Option Piece
  rookFrom : Nat
  rookTo : Nat
  originalHasMoved : Bool
deriving DecidableEq, Repr

/-- The move-application record built by `applyMove` (chessGame.js:256-267).
Mutable-object aliasing of the source becomes value snapshots: `piece` is
the moved piece as it stands after the apply step. -/
structure MoveState where
  piece : Piece
  fromSq : Nat
  toSq : Nat
  captured : Option Piece
  enPassantCaptured : Option Piece
  enPassantCaptureIndex : Option Nat
  promotion : Option PieceType
  originalType : PieceType
  originalHasMoved : Bool
  rookMove : Option RookMoveState
deriving DecidableEq, Repr

/-- `applyMove(fromIndex, move)` (chessGame.js:250-302); `none` models the
thrown `'No piece to move'`. -/
def applyMove (b : Board) (fromIndex : Nat) (m : MoveCand) :
    Option (Board × MoveState) :=
  match boardGet b fromIndex with
  | none => none
  | some piece =>
    let b1 := boardSet b fromIndex none
    let rookStep : Board × Option RookMoveState :=
      match m.castle with
      | none => (b1, none)
      | some c =>
        match boardGet b1 c.rookFrom with
        | none =>
          (b1, some { piece := none, rookFrom := c.rookFrom, rookTo := c.rookTo,
                      originalHasMoved := false })
        | some rook =>
          let rook' := { rook with hasMoved := true }
          (boardSet (boardSet b1 c.rookFrom none) c.rookTo (some rook'),
           some { piece := some rook', rookFrom := c.rookFrom, rookTo := c.rookTo,
                  originalHasMoved := rook.hasMoved })
    let b2 := rookStep.1
    let epIndex : Option Nat := if m.enPassant then m.enPassantCapture else none
    let epCaptured : Option Piece :=
      if m.enPassant then
        match m.enPassantCapture with
        | some ci => boardGet b2 ci
        | none => none
      else none
    let b3 := match epIndex with
      | some ci => boardSet b2 ci none
      | none => b2
    let captured : Option Piece := if m.enPassant then none else boardGet b2 m.toSq
    let piece' := { piece with hasMoved := true, type := m.promotion.getD piece.type }
    let b4 := boardSet b3 m.toSq (some piece')
    some (b4,
      { piece := piece', fromSq := fromIndex, toSq := m.toSq, captured := captured,
        enPassantCaptured := epCaptured, enPassantCaptureIndex := epIndex,
        promotion := m.promotion, originalType := piece.type,
        originalHasMoved := piece.hasMoved, rookMove := rookStep.2 })

/-- `undoMove(moveState)` (chessGame.js:304-322). -/
def undoMove (b : Board) (st : MoveState) : Board :=
  let pieceRestored :=
    if st.promotion.isSome then
      { st.piece with hasMoved := st.originalHasMoved, type := st.originalType }
    else { st.piece with hasMoved := st.originalHasMoved }
  let b1 := boardSet b st.toSq st.captured
  let b2 := boardSet b1 st.fromSq (some pieceRestored)
  let b3 := match st.enPassantCaptured, st.enPassantCaptureIndex with
    | some p, some ci => boardSet b2 ci (some p)
    | _, _ => b2
  match st.rookMove with
  | some rm =>
    match rm.piece with
    | some rp =>
      boardSet (boardSet b3 rm.rookTo none) rm.rookFrom
        (some { rp with hasMoved := rm.originalHasMoved })
    | none => b3
  | none => b3

/-! Legality filtering.  `generateLegalMoves` mutates the board through each
apply/undo cycle (chessGame.js:232-248); the embedding threads the board
explicitly and returns the board the loop leaves behind. -/

/-- `moveLeavesKingInCheck` read off the board it is given
(chessGame.js:243-248), as a pure observation: the check status of the
applied position.  When no piece stands on `fromIndex` the source throws;
that branch returns `true` and is unreachable from the callers, which always
pass an occupied square. -/
def checkAfter (b : Board) (color : PieceColor) (fromIndex : Nat)
    (m : MoveCand) : Bool :=
  match applyMove b fromIndex m with
  | some (b2, _) => isKingInCheck b2 color
  | none => true

/-- The loop of `generateLegalMoves` (chessGame.js:232-241) with the board
threaded through each apply/undo cycle.  The `none` branch mirrors the
unreachable throw by skipping the candidate. -/
def legalFilterGo (color : PieceColor) (fromIndex : Nat) :
    List MoveCand → Board → List MoveCand × Board
  | [], b => ([], b)
  | m :: ms, b =>
    match applyMove b fromIndex m with
    | none => legalFilterGo color fromIndex ms b
    | some (b2, st) =>
      let inCheck := isKingInCheck b2 color
      let b3 := undoMove b2 st
      let rest := legalFilterGo color fromIndex ms b3
      (if inCheck then rest.1 else m :: rest.1, rest.2)

/-- `generateLegalMoves(index, piece, color)` (chessGame.js:232-241),
returning the filtered list and the board the make/unmake loop leaves. -/
def generateLegalMoves (b : Board) (ep : Option EPTarget) (i : Nat)
    (piece : Piece) (color : PieceColor) : List MoveCand × Board :=
  legalFilterGo color i (generatePseudoMoves b ep i piece) b

/-- The loop of `hasAnyLegalMoves` (chessGame.js:220-230) over the listed
indices, threading the board. -/
def hasAnyLegalMovesAux (ep : Option EPTarget) (color : PieceColor) :
    List Nat → Board → Bool × Board
  | [], b => (false, b)
  | i :: rest, b =>
    match boardGet b i with
    | none => hasAnyLegalMovesAux ep color rest b
    | some piece =>
      if piece.color = color then
        let r := generateLegalMoves b ep i piece color
        if r.1.isEmpty then hasAnyLegalMovesAux ep color rest r.2
        else (true, r.2)
      else hasAnyLegalMovesAux ep color rest b

/-- `hasAnyLegalMoves(color)` (chessGame.js:220-230). -/
def hasAnyLegalMoves (b : Board) (ep : Option EPTarget)
    (color : PieceColor) : Bool × Board :=
  hasAnyLegalMovesAux ep color (List.range 64) b

/-! Game state and the public rules-engine operations
(chessGame.js:67-228, 324-337, 684-725). -/

/-- `this.winner`: `null`, a color string, or `'draw'`. -/
inductive Winner where
  | white | black | draw
deriving DecidableEq, Repr

def winnerOfColor : PieceColor → Winner
  | .white => .white
  | .black => .black

/-- The rook sub-record of `this.lastMove` (chessGame.js:201-203). -/
structure LastRook where
  rookFrom : Nat
  rookTo : Nat
deriving DecidableEq, Repr

/-- `this.lastMove` (chessGame.js:198-204). -/
structure LastMove where
  fromSq : Nat
  toSq : Nat
  rook : Option LastRook
deriving DecidableEq, Repr

/-- The full mutable state owned by `ChessGame` (chessGame.js:67-77). -/
structure ChessGame where
  board : Board
  currentPlayer : PieceColor
  moveHistory : List String
  nextPieceId : Nat
  lastMove : Option LastMove
  winner : Option Winner
  enPassantTarget : Option EPTarget
deriving DecidableEq, Repr

/-- The `STARTING_BOARD` rows (chessGame.js:15-24). -/
def STARTING_BOARD : List (List Char) :=
  [['r', 'n', 'b', 'q', 'k', 'b', 'n', 'r'],
   ['p', 'p', 'p', 'p', 'p', 'p', 'p', 'p'],
   ['.', '.', '.', '.', '.', '.', '.', '.'],
   ['.', '.', '.', '.', '.', '.', '.', '.'],
   ['.', '.', '.', '.', '.', '.', '.', '.'],
   ['.', '.', '.', '.', '.', '.', '.', '.'],
   ['P', 'P', 'P', 'P', 'P', 'P', 'P', 'P'],
   ['R', 'N', 'B', 'Q', 'K', 'B', 'N', 'R']]

/-- `CHAR_TO_TYPE` (chessGame.js:26-33). -/
def charToType : Char → Option PieceType
  | 'p' => some .pawn
  | 'n' => some .knight
  | 'b' => some .bishop
  | 'r' => some .rook
  | 'q' => some .queen
  | 'k' => some .king
  | _ => none

/-- One cell of the `reset()` double loop (chessGame.js:82-97), threading
the board being filled and `nextPieceId`. -/
def resetStep (acc : Board × Nat) (cell : Nat × Nat) : Board × Nat :=
  let ch := (STARTING_BOARD.getD cell.1 []).getD cell.2 '.'
  match charToType ch.toLower with
  | none => acc
  | some t =>
    let color : PieceColor := if ch = ch.toLower then .black else .white
    (boardSet acc.1 (cell.1 * 8 + cell.2)
        (some { type := t, color := color, hasMoved := false, id := acc.2 }),
     acc.2 + 1)

/-- The row-major `(row, col)` traversal order of `reset()`. -/
def resetCells : List (Nat × Nat) :=
  (List.range 8).flatMap fun r => (List.range 8).map fun c => (r, c)

/-- The board and `nextPieceId` produced by `reset()` (chessGame.js:79-103). -/
def resetBoardPair : Board × Nat :=
  resetCells.foldl resetStep (List.replicate 64 none, 1)

/-- The state after `reset()` / construction (chessGame.js:67-103). -/
def ChessGame.initial : ChessGame :=
  { board := resetBoardPair.1, currentPlayer := .white, moveHistory := [],
    nextPieceId := resetBoardPair.2, lastMove := none, winner := none,
    enPassantTarget := none }

/-- `getPieceAt(index)` (chessGame.js:105-107). -/
def ChessGame.getPieceAt (g : ChessGame) (index : Nat) : Option Piece :=
  boardGet g.board index

/-- `getLegalMoves(index)` (chessGame.js:130-137); the board the filter
loop leaves behind is not observable through this accessor. -/
def ChessGame.getLegalMoves (g : ChessGame) (index : Nat) : List MoveCand :=
  if g.winner.isSome then []
  else
    match boardGet g.board index with
    | none => []
    | some piece =>
      if piece.color = g.currentPlayer then
        (generateLegalMoves g.board g.enPassantTarget index piece piece.color).1
      else []

/-- `updateEnPassantState` (chessGame.js:324-337), returning the new
`this.enPassantTarget`. -/
def updateEnPassantState (originalType : PieceType) (fromRow fromCol toRow : Int)
    (color : PieceColor) (m : MoveCand) : Option EPTarget :=
  if originalType ≠ .pawn then none
  else if (toRow - fromRow).natAbs ≠ 2 ∨ m.enPassant then none
  else
    some { index := coordToIndex ((fromRow + toRow) / 2) fromCol,
           captureColor := color.opposite }

/-- `PIECE_TO_LETTER` (chessGame.js:35-42). -/
def pieceToLetter : PieceType → String
  | .pawn => "P"
  | .knight => "N"
  | .bishop => "B"
  | .rook => "R"
  | .queen => "Q"
  | .king => "K"

/-- The `FILES` string (chessGame.js:44). -/
def filesList : List Char := ['a', 'b', 'c', 'd', 'e', 'f', 'g', 'h']

/-- `squareName(index)` (chessGame.js:58-61). -/
def squareName (index : Nat) : String :=
  String.mk [filesList.getD (index % 8) 'a'] ++ toString (8 - index / 8)

/-- `capitalize(value)` (chessGame.js:63-65). -/
def capitalize (s : String) : String :=
  match s.data with
  | [] => ""
  | c :: rest => String.mk (c.toUpper :: rest)

def colorName : PieceColor → String
  | .white => "white"
  | .black => "black"

/-- The `' #'` / `' +'` / `' ='` suffix shared by both notation shapes
(chessGame.js:700-707, 716-723). -/
def historySuffix (check checkmate stalemate : Bool) : String :=
  if checkmate then " #" else if check then " +" else if stalemate then " =" else ""

/-- `createHistoryEntry` (chessGame.js:684-725). -/
def createHistoryEntry (pieceType : PieceType) (color : PieceColor)
    (fromIndex toIndex : Nat) (captured : Option Piece)
    (promotion : Option PieceType) (check checkmate stalemate : Bool)
    (castle : Option CastleSide) (enPassant : Bool) : String :=
  let player := capitalize (colorName color)
  match castle with
  | some side =>
    let text := match side with
      | .king => "O-O"
      | .queen => "O-O-O"
    player ++ ": " ++ text ++ historySuffix check checkmate stalemate
  | none =>
    let action := if captured.isSome then "x" else "→"
    let promotionSuffix := match promotion with
      | some p => "=" ++ pieceToLetter p
      | none => ""
    let enPassantSuffix := if enPassant then " (e.p.)" else ""
    player ++ ": " ++ pieceToLetter pieceType ++ squareName fromIndex ++ " " ++
      action ++ " " ++ squareName toIndex ++ promotionSuffix ++
      enPassantSuffix ++ historySuffix check checkmate stalemate

/-- The result object returned by `move(from, to)` (chessGame.js:139-218);
the failure shape only populates `success` and `message`. -/
structure MoveResult where
  success : Bool
  message : Option String := none
  captured : Option Piece := none
  check : Option PieceColor := none
  checkmate : Bool := false
  stalemate : Bool := false
  historyEntry : Option String := none
  winner : Option Winner := none
  castle : Option CastleMove := none
  enPassant : Bool := false
deriving DecidableEq, Repr

/-- `move(fromIndex, toIndex)` (chessGame.js:139-218).  `none` models the
exception `applyMove` could throw; every rejection path of the source
returns its `{success:false}` object with whatever board the legality loop
left behind. -/
def ChessGame.move (g : ChessGame) (fromIndex toIndex : Nat) :
    Option (ChessGame × MoveResult) :=
  if g.winner.isSome then
    some (g, { success := false, message := some "Game over" })
  else
    match boardGet g.board fromIndex with
    | none => some (g, { success := false, message := some "Select a valid piece" })
    | some piece =>
      if piece.color ≠ g.currentPlayer then
        some (g, { success := false, message := some "Select a valid piece" })
      else
        let lm := generateLegalMoves g.board g.enPassantTarget fromIndex piece piece.color
        match lm.1.find? (fun m => m.toSq = toIndex) with
        | none =>
          some ({ g with board := lm.2 },
            { success := false, message := some "Illegal move" })
        | some targetMove =>
          match applyMove lm.2 fromIndex targetMove with
          | none => none
          | some (b4, st) =>
            let capturedPiece := st.captured.or st.enPassantCaptured
            let newEp := updateEnPassantState piece.type (indexRow fromIndex)
              (indexCol fromIndex) (indexRow toIndex) piece.color targetMove
            let opponent := piece.color.opposite
            let opponentInCheck := isKingInCheck b4 opponent
            let ham := hasAnyLegalMoves b4 newEp opponent
            let checkmate := !ham.1 && opponentInCheck
            let stalemate := !ham.1 && !opponentInCheck
            let newWinner : Option Winner :=
              if !ham.1 then
                if opponentInCheck then some (winnerOfColor piece.color)
                else some .draw
              else none
            let historyEntry := createHistoryEntry piece.type piece.color
              fromIndex toIndex capturedPiece targetMove.promotion
              opponentInCheck checkmate stalemate
              (targetMove.castle.map (·.side)) targetMove.enPassant
            let newLast : LastMove :=
              { fromSq := fromIndex, toSq := toIndex,
                rook := targetMove.castle.map fun c =>
                  { rookFrom := c.rookFrom, rookTo := c.rookTo } }
            some ({ board := ham.2, currentPlayer := opponent,
                    moveHistory := g.moveHistory ++ [historyEntry],
                    nextPieceId := g.nextPieceId,
                    lastMove := some newLast,
                    winner := newWinner, enPassantTarget := newEp },
              { success := true, captured := capturedPiece,
                check := if opponentInCheck then some opponent else none,
                checkmate := checkmate, stalemate := stalemate,
                historyEntry := some historyEntry, winner := newWinner,
                castle := targetMove.castle, enPassant := targetMove.enPassant })

/-! Soundness facts about generated candidates.  `CandOk` collects, per
candidate shape, exactly the guard information the generator established
when it pushed the move. -/

/-- The pawn's marching direction (chessGame.js:345). -/
def pawnDir (c : PieceColor) : Int := if c = .white then -1 else 1

/-- The pawn's double-step start row (chessGame.js:346). -/
def pawnStartRow (c : PieceColor) : Int := if c = .white then 6 else 1

/-- Side-dependent coordinate and guard facts of a generated castling
candidate (chessGame.js:501-571). -/
def castleSideFacts (b : Board) (piece : Piece) (i : Nat) (c : CastleMove)
    (t : Nat) : Prop :=
  let row := indexRow i
  let col := indexCol i
  let opp := piece.color.opposite
  match c.side with
  | .king =>
    c.rookFrom = coordToIndex row 7 ∧ c.rookTo = coordToIndex row (col + 1) ∧
    t = coordToIndex row (col + 2) ∧
    isOnBoard row (col + 1) = true ∧ isOnBoard row (col + 2) = true ∧
    boardGet b (coordToIndex row (col + 1)) = none ∧
    boardGet b (coordToIndex row (col + 2)) = none ∧
    isSquareAttacked b (coordToIndex row (col + 1)) opp = false ∧
    isSquareAttacked b (coordToIndex row (col + 2)) opp = false
  | .queen =>
    c.rookFrom = coordToIndex row 0 ∧ c.rookTo = coordToIndex row (col - 1) ∧
    t = coordToIndex row (col - 2) ∧
    isOnBoard row (col - 1) = true ∧ isOnBoard row (col - 2) = true ∧
    isOnBoard row (col - 3) = true ∧
    boardGet b (coordToIndex row (col - 1)) = none ∧
    boardGet b (coordToIndex row (col - 2)) = none ∧
    boardGet b (coordToIndex row (col - 3)) = none ∧
    isSquareAttacked b (coordToIndex row (col - 1)) opp = false ∧
    isSquareAttacked b (coordToIndex row (col - 2)) opp = false

/-- What the generator guarantees about each pushed candidate. -/
inductive CandOk (b : Board) (ep : Option EPTarget) (i : Nat) (piece : Piece) :
    MoveCand → Prop where
  | normal {m : MoveCand}
      (hfrom : m.fromSq = i)
      (hcastle : m.castle = none)
      (henp : m.enPassant = false)
      (hepc : m.enPassantCapture = none)
      (hpromo : m.promotion =
        if piece.type = .pawn then pawnPromoRow (indexRow m.toSq) else none)
      (hdouble : piece.type = .pawn → (indexRow m.toSq - indexRow i).natAbs = 2 →
        indexCol m.toSq = indexCol i ∧
        indexRow i = pawnStartRow piece.color ∧
        indexRow m.toSq = pawnStartRow piece.color + 2 * pawnDir piece.color ∧
        boardGet b m.toSq = none ∧
        boardGet b (coordToIndex ((indexRow i + indexRow m.toSq) / 2)
          (indexCol i)) = none)
      (hto64 : m.toSq < 64)
      (hpawnshape : piece.type = .pawn →
        (indexCol m.toSq = indexCol i ∧ boardGet b m.toSq = none) ∨
        (∃ tp, boardGet b m.toSq = some tp ∧ tp.color ≠ piece.color))
      (hkingshape : piece.type = .king →
        (indexRow m.toSq - indexRow i).natAbs ≤ 1 ∧
        (indexCol m.toSq - indexCol i).natAbs ≤ 1) :
      CandOk b ep i piece m
  | enpassant {m : MoveCand} (e : EPTarget) (ci : Nat) (cp : Piece)
      (hfrom : m.fromSq = i)
      (hcastle : m.castle = none)
      (henp : m.enPassant = true)
      (hpromo : m.promotion = none)
      (hepc : m.enPassantCapture = some ci)
      (hepe : ep = some e)
      (hidx : e.index = m.toSq)
      (hcc : e.captureColor = piece.color)
      (hpawn : piece.type = .pawn)
      (hcp : boardGet b ci = some cp)
      (hcpt : cp.type = .pawn)
      (hcpc : cp.color ≠ piece.color)
      (hcoords : ∃ offset : Int, (offset = -1 ∨ offset = 1) ∧
        isOnBoard (indexRow i + pawnDir piece.color) (indexCol i + offset) = true ∧
        m.toSq = coordToIndex (indexRow i + pawnDir piece.color)
          (indexCol i + offset) ∧
        ci = coordToIndex (indexRow i) (indexCol i + offset)) :
      CandOk b ep i piece m
  | castle {m : MoveCand} (c : CastleMove) (rook : Piece)
      (hfrom : m.fromSq = i)
      (hcastle : m.castle = some c)
      (henp : m.enPassant = false)
      (hepc : m.enPassantCapture = none)
      (hpromo : m.promotion = none)
      (hking : piece.type = .king)
      (hmoved : piece.hasMoved = false)
      (hsafe : isSquareAttacked b i piece.color.opposite = false)
      (hrook : boardGet b c.rookFrom = some rook)
      (hrt : rook.type = .rook)
      (hrc : rook.color = piece.color)
      (hrm : rook.hasMoved = false)
      (hside : castleSideFacts b piece i c m.toSq) :
      CandOk b ep i piece m

/-! The threaded make/unmake filter agrees with a pure filter and restores
the board, whenever the recorded en-passant target square is empty. -/

/-- `epOk` is the board-level invariant the legality loop needs: the
recorded en-passant target square is unoccupied. -/
def epOk (b : Board) (ep : Option EPTarget) : Prop :=
  ∀ e, ep = some e → boardGet b e.index = none

instance (b : Board) (ep : Option EPTarget) : Decidable (epOk b ep) := by
  unfold epOk
  cases ep with
  | none => exact isTrue (by intro e h; cases h)
  | some e =>
    refine decidable_of_iff (boardGet b e.index = none) ⟨fun h f hf => ?_, fun h => h e rfl⟩
    cases hf; exact h

/-- The legal-move list as a pure filter over the pseudo moves. -/
def legalMovesPure (b : Board) (ep : Option EPTarget) (i : Nat) (piece : Piece)
    (color : PieceColor) : List MoveCand :=
  (generatePseudoMoves b ep i piece).filter fun m => !checkAfter b color i m

/-- The pure reading of `hasAnyLegalMoves`. -/
def hasAnyPure (b : Board) (ep : Option EPTarget) (color : PieceColor) : Bool :=
  (List.range 64).any fun j =>
    match boardGet b j with
    | some p => p.color = color && !(legalMovesPure b ep j p color).isEmpty
    | none => false

/-! A pure characterisation of `move`, valid on well-formed states. -/

/-- The state invariant every state reachable through the public API
satisfies: the board keeps its 64 slots, and a recorded en-passant target is
an empty square on the row a double step just crossed (row 2 or 5). -/
def WellFormed (g : ChessGame) : Prop :=
  g.board.length = 64 ∧
  ∀ e, g.enPassantTarget = some e → boardGet g.board e.index = none ∧
    (indexRow e.index = 2 ∨ indexRow e.index = 5)

instance (g : ChessGame) : Decidable (WellFormed g) := by
  unfold WellFormed
  cases hep : g.enPassantTarget with
  | none =>
    refine decidable_of_iff (g.board.length = 64) ⟨fun h => ⟨h, ?_⟩, fun h => h.1⟩
    intro e he; cases he
  | some e =>
    refine decidable_of_iff (g.board.length = 64 ∧ boardGet g.board e.index = none ∧
      (indexRow e.index = 2 ∨ indexRow e.index = 5))
      ⟨fun h => ⟨h.1, fun f hf => ?_⟩, fun h => ⟨h.1, (h.2 e rfl).1, (h.2 e rfl).2⟩⟩
    cases hf; exact h.2

/-- Pure mirror of `move` (chessGame.js:139-218): the legality filter and
the `hasAnyLegalMoves` scan are replaced by their pure readings, the board
by the one `applyMove` produced.  On well-formed states this is exactly what
`move` computes. -/
def movePure (g : ChessGame) (fromIndex toIndex : Nat) :
    Option (ChessGame × MoveResult) :=
  if g.winner.isSome then
    some (g, { success := false, message := some "Game over" })
  else
    match boardGet g.board fromIndex with
    | none => some (g, { success := false, message := some "Select a valid piece" })
    | some piece =>
      if piece.color ≠ g.currentPlayer then
        some (g, { success := false, message := some "Select a valid piece" })
      else
        match (legalMovesPure g.board g.enPassantTarget fromIndex piece
            piece.color).find? (fun m => m.toSq = toIndex) with
        | none => some (g, { success := false, message := some "Illegal move" })
        | some targetMove =>
          match applyMove g.board fromIndex targetMove with
          | none => none
          | some (b4, st) =>
            let capturedPiece := st.captured.or st.enPassantCaptured
            let newEp := updateEnPassantState piece.type (indexRow fromIndex)
              (indexCol fromIndex) (indexRow toIndex) piece.color targetMove
            let opponent := piece.color.opposite
            let opponentInCheck := isKingInCheck b4 opponent
            let anyMoves := hasAnyPure b4 newEp opponent
            let checkmate := !anyMoves && opponentInCheck
            let stalemate := !anyMoves && !opponentInCheck
            let newWinner : Option Winner :=
              if !anyMoves then
                if opponentInCheck then some (winnerOfColor piece.color)
                else some .draw
              else none
            let historyEntry := createHistoryEntry piece.type piece.color
              fromIndex toIndex capturedPiece targetMove.promotion
              opponentInCheck checkmate stalemate
              (targetMove.castle.map (·.side)) targetMove.enPassant
            let newLast : LastMove :=
              { fromSq := fromIndex, toSq := toIndex,
                rook := targetMove.castle.map fun c =>
                  { rookFrom := c.rookFrom, rookTo := c.rookTo } }
            some ({ board := b4, currentPlayer := opponent,
                    moveHistory := g.moveHistory ++ [historyEntry],
                    nextPieceId := g.nextPieceId,
                    lastMove := some newLast,
                    winner := newWinner, enPassantTarget := newEp },
              { success := true, captured := capturedPiece,
                check := if opponentInCheck then some opponent else none,
                checkmate := checkmate, stalemate := stalemate,
                historyEntry := some historyEntry, winner := newWinner,
                castle := targetMove.castle, enPassant := targetMove.enPassant })

/-- The states reachable through the public API: the freshly constructed or
reset game, then any successful `move`.  (`reset()` returns any state to
`ChessGame.initial`.) -/
inductive Reachable : ChessGame → Prop where
  | init : Reachable ChessGame.initial
  | step {g g' : ChessGame} {a t : Nat} {r : MoveResult} :
      Reachable g → ChessGame.move g a t = some (g', r) → r.success = true →
      Reachable g'

/-! States used as concrete inputs in witnesses and counterexamples. -/

/-- A contrived board, unreachable in play: white pawn on e5 (28), black
pawn on d5 (27), and a white knight parked on d6 (19) — the very square a
(bogus) en-passant record points at. -/
def epCexBoard : Board :=
  boardSet (boardSet (boardSet (List.replicate 64 (none : Option Piece))
    28 (some { type := .pawn, color := .white, hasMoved := true, id := 1 }))
    27 (some { type := .pawn, color := .black, hasMoved := true, id := 2 }))
    19 (some { type := .knight, color := .white, hasMoved := true, id := 3 })

def epCexTarget : Option EPTarget := some { index := 19, captureColor := .white }

def epCexPawn : Piece := { type := .pawn, color := .white, hasMoved := true, id := 1 }

/-- The en-passant candidate the generator produces on `epCexBoard`. -/
def epCexMove : MoveCand :=
  { fromSq := 28, toSq := 19, enPassant := true, enPassantCapture := some 27 }

/-- `epCexBoard` wrapped in a full game state. -/
def epCexGame : ChessGame :=
  { board := epCexBoard, currentPlayer := .white, moveHistory := [],
    nextPieceId := 4, lastMove := none, winner := none,
    enPassantTarget := epCexTarget }

/-- A mate-in-one state: white rook e1, white king g6, black king h8;
Re1→e8 is checkmate. -/
def mateGame : ChessGame :=
  { board := boardSet (boardSet (boardSet (List.replicate 64 (none : Option Piece))
      60 (some { type := .rook, color := .white, hasMoved := false, id := 1 }))
      22 (some { type := .king, color := .white, hasMoved := true, id := 2 }))
      7 (some { type := .king, color := .black, hasMoved := true, id := 3 }),
    currentPlayer := .white, moveHistory := [], nextPieceId := 4,
    lastMove := none, winner := none, enPassantTarget := none }

/-- app.js:1317 passes the promotion letter parsed from the engine's UCI
move as a third argument to `move`; the rules engine's `move`
(chessGame.js:139) declares only `(fromIndex, toIndex)`, so JavaScript call
semantics drop the extra argument. -/
def ChessGame.movePromotion (g : ChessGame) (fromIndex toIndex : Nat)
    (promotion : Option PieceType) : Option (ChessGame × MoveResult) :=
  ChessGame.move g fromIndex toIndex

/-- The row restriction every reachable state's en-passant record
satisfies: the target square sits on row 2 or row 5. -/
def epOnMiddleRows (g : ChessGame) : Prop :=
  ∀ e, g.enPassantTarget = some e → indexRow e.index = 2 ∨ indexRow e.index = 5

/-- A promotion-ready state: white pawn a7, white king e1, black king e8. -/
def promoGame : ChessGame :=
  { board := boardSet (boardSet (boardSet (List.replicate 64 (none : Option Piece))
      8 (some { type := .pawn, color := .white, hasMoved := true, id := 1 }))
      60 (some { type := .king, color := .white, hasMoved := true, id := 2 }))
      4 (some { type := .king, color := .black, hasMoved := true, id := 3 }),
    currentPlayer := .white, moveHistory := [], nextPieceId := 4,
    lastMove := none, winner := none, enPassantTarget := none }

/-- The en-passant candidate shape the generator emits
(chessGame.js:384-389). -/
def epMoveCand (i toSq ci : Nat) : MoveCand :=
  { fromSq := i, toSq := toSq, enPassant := true, enPassantCapture := some ci }

/-- A minimal legitimate en-passant scenario: white pawn on e5 (28), black
pawn on d5 (27), the en-passant record pointing at d6 (19). -/
def epWitBoard : Board :=
  boardSet (boardSet (List.replicate 64 (none : Option Piece))
    28 (some { type := .pawn, color := .white, hasMoved := true, id := 1 }))
    27 (some { type := .pawn, color := .black, hasMoved := true, id := 2 })

/-- `epWitBoard` wrapped in a full game state with white to move. -/
def epWitGame : ChessGame :=
  { board := epWitBoard, currentPlayer := .white, moveHistory := [],
    nextPieceId := 3, lastMove := none, winner := none,
    enPassantTarget := some { index := 19, captureColor := .white } }

/-- A castle-ready position: white king e1 (60) and rook h1 (63), both
unmoved, f1/g1 empty, black king on e8 (4). -/
def castleWitBoard : Board :=
  boardSet (boardSet (boardSet (List.replicate 64 (none : Option Piece))
    60 (some { type := .king, color := .white, hasMoved := false, id := 1 }))
    63 (some { type := .rook, color := .white, hasMoved := false, id := 2 }))
    4 (some { type := .king, color := .black, hasMoved := false, id := 3 })

/-- `castleWitBoard` wrapped in a full game state with white to move. -/
def castleWitGame : ChessGame :=
  { board := castleWitBoard, currentPlayer := .white, moveHistory := [],
    nextPieceId := 4, lastMove := none, winner := none,
    enPassantTarget := none }

/-- The king-side castling candidate generated on `castleWitGame`. -/
def castleWitMove : MoveCand :=
  { fromSq := 60, toSq := 62,
    castle := some { side := .king, rookFrom := 63, rookTo := 61 } }

/-- Modelled from the spec: the FEN letter of a piece type in lowercase
(the rules-engine module the orchestrator imports,
`src/apps/chess/game/chessGame.js`, is absent from the snapshot; the spec
requires `getFEN()` to emit standard FEN board layout and side to move,
with the remaining fields omitted). -/
def fenLetter : PieceType → String
  | .pawn => "p"
  | .knight => "n"
  | .bishop => "b"
  | .rook => "r"
  | .queen => "q"
  | .king => "k"

/-- Modelled from the spec: uppercase letters for white pieces, lowercase
for black. -/
def fenPiece (p : Piece) : String :=
  if p.color = .white then capitalize (fenLetter p.type) else fenLetter p.type

/-- Modelled from the spec: run-length encoding of one FEN rank, carrying
the count of consecutive empty squares. -/
def fenRowGo : List (Option Piece) → Nat → String
  | [], 0 => ""
  | [], n + 1 => toString (n + 1)
  | none :: rest, n => fenRowGo rest (n + 1)
  | some p :: rest, 0 => fenPiece p ++ fenRowGo rest 0
  | some p :: rest, n + 1 => toString (n + 1) ++ fenPiece p ++ fenRowGo rest 0

/-- Modelled from the spec: the FEN board-layout field, ranks from the top
of the board joined with `/`. -/
def fenPlacement (b : Board) : String :=
  String.intercalate "/" ((List.range 8).map fun r =>
    fenRowGo ((List.range 8).map fun c => boardGet b (r * 8 + c)) 0)

/-- Modelled from the spec: the FEN side-to-move field. -/
def sideToMoveField : PieceColor → String
  | .white => "w"
  | .black => "b"

/-- Modelled from the spec: `getFEN()` exported by the Rules Engine —
board layout plus side to move. -/
def ChessGame.getFEN (g : ChessGame) : String :=
  fenPlacement g.board ++ " " ++ sideToMoveField g.currentPlayer

/-- The FEN string the orchestrator's engine-move request obtains through
`this.game.getFEN()` (app.js:1308) and passes to the external engine. -/
def requestEngineMoveFen (g : ChessGame) : String := ChessGame.getFEN g

/-- Orchestrator state relevant to the engine-move dispatch (app.js
constructor and 1239-1246, 1284-1309); `hasEngine` stands for
`this.engine` being non-null and `engineReady` for the readiness promise
resolving successfully. -/
structure ChessApp where
  game : ChessGame
  singlePlayer : Bool
  humanColor : PieceColor
  engineColor : PieceColor
  engineThinking : Bool
  hasEngine : Bool
  engineReady : Bool

/-- The move-result fields the single-player dispatch of
`processMoveResult` reads (app.js:1239-1246). -/
structure OrchMoveResult where
  movedColor : PieceColor
  checkmate : Bool
  stalemate : Bool

/-- What the single-player branch of `processMoveResult` decides to do. -/
inductive EngineAction where
  | requestMove
  | clearThinking
  | nothing
deriving DecidableEq, Repr

/-- The single-player dispatch at the end of `processMoveResult`
(app.js:1239-1246). -/
def processMoveResultDispatch (app : ChessApp) (result : OrchMoveResult) :
    EngineAction :=
  if app.singlePlayer then
    if decide (result.movedColor = app.humanColor) && !result.checkmate &&
        !result.stalemate && !app.game.winner.isSome then
      EngineAction.requestMove
    else if result.movedColor = app.engineColor then
      EngineAction.clearThinking
    else EngineAction.nothing
  else EngineAction.nothing

/-- The guarded prefix of `requestEngineMove` up to the `getBestMove` call
(app.js:1284-1309): the updated orchestrator state and the FEN string sent
to the engine, `none` when the request returns early (failed readiness
drops back to two-player mode, app.js:1292-1301). -/
def requestEngineMoveStep (app : ChessApp) : ChessApp × Option String :=
  if !app.singlePlayer || !app.hasEngine then (app, none)
  else if app.game.winner.isSome ||
      decide (app.game.currentPlayer ≠ app.engineColor) then (app, none)
  else if !app.engineReady then
    ({ app with singlePlayer := false, engineThinking := false }, none)
  else
    ({ app with engineThinking := true }, some (ChessGame.getFEN app.game))

/-- An orchestrator state right after the human (black) move on the
initial position, with the engine owning the white turn. -/
def engineTurnApp : ChessApp :=
  { game := ChessGame.initial, singlePlayer := true, humanColor := .black,
    engineColor := .white, engineThinking := false, hasEngine := true,
    engineReady := true }

/-- The result fields of a quiet human move. -/
def humanMoveResult : OrchMoveResult :=
  { movedColor := .black, checkmate := false, stalemate := false }

/-- Incoming events relevant to one best-move request: the engine lines
matched by `handleMessage`/`waitFor` and a `stop()` call
(stockfishEngine.js:33-68,110-119). -/
inductive EngLine where
  | uciok
  | readyok
  | bestmove (mv : Option String)
  | stopCall
deriving DecidableEq, Repr

/-- One best-move request's position in `getBestMove`'s control flow, its
states the await points of the source (stockfishEngine.js:71-99,128-157):
the request first awaits the `initialize` handshake (`uciok`, then the
handshake's `readyok`), then its own `waitReady` after `position` is sent
(`readyok`), and only then registers the pending resolve/reject pair and
sends `go`. -/
inductive ReqState where
  | awaitingUciok
  | awaitingHandshakeReady
  | awaitingPositionReady
  | searching
  | resolvedMove (mv : Option String)
  | rejected
deriving DecidableEq, Repr

/-- One event's effect on a request, with the number of times the event
settles the request's promise: a `bestmove` line settles a registered
request through the resolve wrapper, `stop()` rejects it through the
reject wrapper, and both wrappers null the pending fields before settling,
so the terminal states absorb every later event with no further settlement
(stockfishEngine.js:42-50,110-119,135-146). -/
def reqStep : ReqState → EngLine → ReqState × Nat
  | .awaitingUciok, .uciok => (.awaitingHandshakeReady, 0)
  | .awaitingUciok, _ => (.awaitingUciok, 0)
  | .awaitingHandshakeReady, .readyok => (.awaitingPositionReady, 0)
  | .awaitingHandshakeReady, _ => (.awaitingHandshakeReady, 0)
  | .awaitingPositionReady, .readyok => (.searching, 0)
  | .awaitingPositionReady, _ => (.awaitingPositionReady, 0)
  | .searching, .bestmove mv => (.resolvedMove mv, 1)
  | .searching, .stopCall => (.rejected, 1)
  | .searching, _ => (.searching, 0)
  | .resolvedMove mv, _ => (.resolvedMove mv, 0)
  | .rejected, _ => (.rejected, 0)

/-- A request's state and total settlement count after a sequence of
events. -/
def runReq : ReqState → List EngLine → ReqState × Nat
  | s, [] => (s, 0)
  | s, e :: evs =>
    let st := reqStep s e
    let rest := runReq st.1 evs
    (rest.1, st.2 + rest.2)

/-! Theorems. -/

theorem coordToIndex_indexRow_indexCol (i : Nat) (h : i < 64) :
    coordToIndex (indexRow i) (indexCol i) = i := by
  simp only [coordToIndex, indexRow, indexCol]
  omega

theorem indexRow_coordToIndex (row col : Int) (h : isOnBoard row col = true) :
    indexRow (coordToIndex row col) = row := by
  simp only [isOnBoard, decide_eq_true_eq] at h
  simp only [indexRow, coordToIndex]
  omega

theorem indexCol_coordToIndex (row col : Int) (h : isOnBoard row col = true) :
    indexCol (coordToIndex row col) = col := by
  simp only [isOnBoard, decide_eq_true_eq] at h
  simp only [indexCol, coordToIndex]
  omega

theorem coordToIndex_lt_64 (row col : Int) (h : isOnBoard row col = true) :
    coordToIndex row col < 64 := by
  simp only [isOnBoard, decide_eq_true_eq] at h
  simp only [coordToIndex]
  omega

theorem coordToIndex_inj {r1 c1 r2 c2 : Int}
    (h1 : isOnBoard r1 c1 = true) (h2 : isOnBoard r2 c2 = true)
    (h : coordToIndex r1 c1 = coordToIndex r2 c2) : r1 = r2 ∧ c1 = c2 := by
  simp only [isOnBoard, decide_eq_true_eq] at h1 h2
  simp only [coordToIndex] at h
  omega

theorem boardGet_boardSet_ne (b : Board) {i j : Nat} (v : Option Piece)
    (h : i ≠ j) : boardGet (boardSet b j v) i = boardGet b i := by
  simp only [boardGet, boardSet]
  induction b generalizing i j with
  | nil => simp
  | cons hd tl ih =>
    cases j with
    | zero => cases i with
      | zero => exact absurd rfl h
      | succ i => simp [List.set, List.getD]
    | succ j => cases i with
      | zero => simp [List.set, List.getD]
      | succ i =>
        simp only [List.set, List.getD, List.getElem?_cons_succ]
        exact ih (by omega)

theorem boardGet_boardSet_self (b : Board) (i : Nat) (v : Option Piece)
    (h : i < b.length) : boardGet (boardSet b i v) i = v := by
  simp only [boardGet, boardSet, List.getD]
  rw [List.get?_eq_getElem?, List.getElem?_set_eq_of_lt _ h]
  rfl

theorem boardSet_boardSet_self (b : Board) (i : Nat) (v w : Option Piece) :
    boardSet (boardSet b i v) i w = boardSet b i w := by
  simp [boardSet, List.set_set]

theorem boardSet_comm (b : Board) {i j : Nat} (v w : Option Piece)
    (h : i ≠ j) : boardSet (boardSet b i v) j w = boardSet (boardSet b j w) i v := by
  simp only [boardSet]
  exact List.set_comm _ _ _ h

theorem boardSet_boardGet_self (b : Board) (i : Nat) :
    boardSet b i (boardGet b i) = b := by
  simp only [boardGet, boardSet]
  induction b generalizing i with
  | nil => simp
  | cons hd tl ih =>
    cases i with
    | zero => simp [List.getD]
    | succ i =>
      simp only [List.getD, List.getElem?_cons_succ, List.set]
      exact congrArg (hd :: ·) (ih i)

theorem boardGet_isSome_lt (b : Board) (i : Nat) (p : Piece)
    (h : boardGet b i = some p) : i < b.length := by
  by_contra hn
  simp only [boardGet, List.getD] at h
  rw [List.get?_eq_none.mpr (by omega)] at h
  simp at h

theorem slideRay_shape {b : Board} {i : Nat} {piece : Piece}
    {row col dr dc : Int} {fuel : Nat} {m : MoveCand}
    (hm : m ∈ slideRay b i piece row col dr dc fuel) :
    m.fromSq = i ∧ m.promotion = none ∧ m.castle = none ∧
      m.enPassant = false ∧ m.enPassantCapture = none ∧ m.toSq < 64 := by
  induction fuel generalizing row col with
  | zero => simp [slideRay] at hm
  | succ fuel ih =>
    simp only [slideRay] at hm
    split at hm
    case isTrue honb =>
      split at hm
      · rcases List.mem_cons.mp hm with h | h
        · subst h
          exact ⟨rfl, rfl, rfl, rfl, rfl, coordToIndex_lt_64 _ _ honb⟩
        · exact ih h
      · split at hm
        · rcases List.mem_singleton.mp hm with rfl
          exact ⟨rfl, rfl, rfl, rfl, rfl, coordToIndex_lt_64 _ _ honb⟩
        · simp at hm
    case isFalse => simp at hm

theorem slideRay_sound {b : Board} {ep : Option EPTarget} {i : Nat}
    {piece : Piece} {row col dr dc : Int} {fuel : Nat} {m : MoveCand}
    (hm : m ∈ slideRay b i piece row col dr dc fuel)
    (hnp : piece.type ≠ .pawn) (hnk : piece.type ≠ .king) :
    CandOk b ep i piece m := by
  obtain ⟨h1, h2, h3, h4, h5, h6⟩ := slideRay_shape hm
  exact .normal h1 h3 h4 h5 (by simp [h2, hnp]) (fun hp => absurd hp hnp) h6
    (fun hp => absurd hp hnp) (fun hk => absurd hk hnk)

theorem slidingMoves_sound {b : Board} {ep : Option EPTarget} {i : Nat}
    {piece : Piece} {row col : Int} {dirs : List (Int × Int)} {m : MoveCand}
    (hm : m ∈ slidingMoves b i piece row col dirs)
    (hnp : piece.type ≠ .pawn) (hnk : piece.type ≠ .king) :
    CandOk b ep i piece m := by
  simp only [slidingMoves, List.mem_flatMap] at hm
  obtain ⟨d, _, hm⟩ := hm
  exact slideRay_sound hm hnp hnk

theorem stepMoves_sound {b : Board} {ep : Option EPTarget} {i : Nat}
    {piece : Piece} {offsets : List (Int × Int)} {m : MoveCand}
    (hm : m ∈ stepMoves b i piece (indexRow i) (indexCol i) offsets)
    (hnp : piece.type ≠ .pawn)
    (hks : piece.type = .king → ∀ d ∈ offsets, d.1.natAbs ≤ 1 ∧ d.2.natAbs ≤ 1) :
    CandOk b ep i piece m := by
  simp only [stepMoves, List.mem_flatMap] at hm
  obtain ⟨d, hd, hm⟩ := hm
  have hshape : ∃ _h : isOnBoard (indexRow i + d.1) (indexCol i + d.2) = true,
      m = { fromSq := i,
            toSq := coordToIndex (indexRow i + d.1) (indexCol i + d.2) } := by
    split at hm
    case isTrue honb =>
      refine ⟨honb, ?_⟩
      split at hm
      · exact List.mem_singleton.mp hm
      · split at hm
        · exact List.mem_singleton.mp hm
        · simp at hm
    case isFalse => simp at hm
  obtain ⟨honb, rfl⟩ := hshape
  refine .normal rfl rfl rfl rfl (by simp [hnp]) (fun hp => absurd hp hnp)
    (coordToIndex_lt_64 _ _ honb) (fun hp => absurd hp hnp) ?_
  intro hk
  rw [indexRow_coordToIndex _ _ honb, indexCol_coordToIndex _ _ honb]
  have := hks hk d hd
  omega

theorem pawnForward_sound {b : Board} {ep : Option EPTarget} {i : Nat}
    {piece : Piece} {m : MoveCand}
    (hm : m ∈ pawnForward b i (indexRow i) (indexCol i) (pawnDir piece.color)
      (pawnStartRow piece.color))
    (hp : piece.type = .pawn) : CandOk b ep i piece m := by
  simp only [pawnForward] at hm
  split at hm
  case isFalse => simp at hm
  case isTrue hguard =>
    rw [Bool.and_eq_true] at hguard
    obtain ⟨hon1, hempty1⟩ := hguard
    rcases List.mem_cons.mp hm with rfl | hm
    · refine .normal rfl rfl rfl rfl ?_ ?_ (coordToIndex_lt_64 _ _ hon1) ?_
        (fun hk => PieceType.noConfusion (hp.symm.trans hk))
      · simp [hp, indexRow_coordToIndex _ _ hon1]
      · intro _ habs
        rw [indexRow_coordToIndex _ _ hon1] at habs
        cases hcol : piece.color <;> simp [pawnDir, hcol] at habs
      · intro _
        exact Or.inl ⟨indexCol_coordToIndex _ _ hon1, by simpa using hempty1⟩
    · split at hm
      case isFalse => simp at hm
      case isTrue hguard2 =>
        rw [Bool.and_eq_true, Bool.and_eq_true] at hguard2
        obtain ⟨⟨hstart, hon2⟩, hempty2⟩ := hguard2
        rw [decide_eq_true_eq] at hstart
        rcases List.mem_singleton.mp hm with rfl
        refine .normal rfl rfl rfl rfl ?_ ?_ (coordToIndex_lt_64 _ _ hon2) ?_
          (fun hk => PieceType.noConfusion (hp.symm.trans hk))
        · simp only [hp, if_pos]
          rw [indexRow_coordToIndex _ _ hon2, hstart]
          cases hcol : piece.color <;>
            simp [pawnStartRow, pawnDir, pawnPromoRow]
        · intro _ _
          rw [indexRow_coordToIndex _ _ hon2, indexCol_coordToIndex _ _ hon2]
          refine ⟨rfl, hstart, by rw [hstart], by simpa using hempty2, ?_⟩
          have hmid : (indexRow i + (indexRow i + 2 * pawnDir piece.color)) / 2 =
              indexRow i + pawnDir piece.color := by
            cases hcol : piece.color <;> simp [pawnDir] <;> omega
          rw [hmid]
          simpa using hempty1
        · intro _
          exact Or.inl ⟨indexCol_coordToIndex _ _ hon2, by simpa using hempty2⟩

theorem pawnEp_sound {b : Board} {ep : Option EPTarget} {i : Nat}
    {piece : Piece} {m : MoveCand} {offset : Int}
    (hoff : offset = -1 ∨ offset = 1)
    (hon : isOnBoard (indexRow i + pawnDir piece.color) (indexCol i + offset) = true)
    (hm : m ∈ pawnEp b ep i piece (indexRow i) (indexCol i + offset)
      (coordToIndex (indexRow i + pawnDir piece.color) (indexCol i + offset)))
    (hp : piece.type = .pawn) : CandOk b ep i piece m := by
  cases ep with
  | none => simp [pawnEp] at hm
  | some e =>
    simp only [pawnEp] at hm
    split at hm
    case isFalse => simp at hm
    case isTrue hguard =>
      rw [Bool.and_eq_true, decide_eq_true_eq, decide_eq_true_eq] at hguard
      obtain ⟨hcc, hidx⟩ := hguard
      split at hm
      case h_2 => simp at hm
      case h_1 cp hcp =>
        split at hm
        case isFalse => simp at hm
        case isTrue hcpg =>
          rw [Bool.and_eq_true, decide_eq_true_eq, decide_eq_true_eq] at hcpg
          rcases List.mem_singleton.mp hm with rfl
          exact .enpassant e (coordToIndex (indexRow i) (indexCol i + offset)) cp
            rfl rfl rfl rfl rfl rfl hidx hcc hp hcp hcpg.2 hcpg.1
            ⟨offset, hoff, hon, rfl, rfl⟩

theorem pawnSide_sound {b : Board} {ep : Option EPTarget} {i : Nat}
    {piece : Piece} {m : MoveCand} {offset : Int}
    (hoff : offset = -1 ∨ offset = 1)
    (hm : m ∈ pawnSide b ep i piece (indexRow i) (indexCol i)
      (pawnDir piece.color) offset)
    (hp : piece.type = .pawn) : CandOk b ep i piece m := by
  simp only [pawnSide] at hm
  split at hm
  case isFalse => simp at hm
  case isTrue hon =>
    split at hm
    case h_2 hempty => exact pawnEp_sound hoff hon hm hp
    case h_1 tp htp =>
      split at hm
      case isFalse => exact pawnEp_sound hoff hon hm hp
      case isTrue =>
        rename_i hcpg
        rcases List.mem_singleton.mp hm with rfl
        refine .normal rfl rfl rfl rfl ?_ ?_ (coordToIndex_lt_64 _ _ hon) ?_
          (fun hk => PieceType.noConfusion (hp.symm.trans hk))
        · simp [hp, indexRow_coordToIndex _ _ hon]
        · intro _ habs
          rw [indexRow_coordToIndex _ _ hon] at habs
          cases hcol : piece.color <;> simp [pawnDir, hcol] at habs
        · intro _
          exact Or.inr ⟨tp, htp, by simpa using hcpg⟩

theorem generateCastlingMoves_sound {b : Board} {ep : Option EPTarget}
    {i : Nat} {piece : Piece} {m : MoveCand}
    (hm : m ∈ generateCastlingMoves b i piece (indexRow i) (indexCol i))
    (hk : piece.type = .king) : CandOk b ep i piece m := by
  simp only [generateCastlingMoves] at hm
  split at hm
  case isTrue => simp at hm
  case isFalse hmoved =>
    split at hm
    case isTrue => simp at hm
    case isFalse hsafe =>
      rw [List.mem_flatMap] at hm
      obtain ⟨o, ho, hm⟩ := hm
      rw [List.mem_cons, List.mem_singleton] at ho
      rcases ho with rfl | rfl <;>
      · simp only at hm
        split at hm
        case isTrue => simp at hm
        case isFalse hfinal =>
          split at hm
          case h_1 => simp at hm
          case h_2 rook hrook =>
            split at hm
            case isFalse => simp at hm
            case isTrue hrookok =>
              simp only [Bool.and_eq_true, decide_eq_true_eq, Bool.not_eq_true'] at hrookok
              split at hm
              case isFalse => simp at hm
              case isTrue hpath =>
                split at hm
                case isFalse => simp at hm
                case isTrue hking =>
                  simp only [List.all_cons, List.all_nil, Bool.and_eq_true,
                    Bool.and_true, Bool.not_eq_true', Option.isNone_iff_eq_none]
                    at hpath hking
                  rcases List.mem_singleton.mp hm with rfl
                  refine .castle _ rook rfl rfl rfl rfl rfl hk
                    (by simpa using hmoved) (by simpa using hsafe) hrook
                    hrookok.1.1 hrookok.1.2 hrookok.2 ?_
                  simp only [castleSideFacts]
                  tauto

theorem generatePseudoMoves_sound {b : Board} {ep : Option EPTarget}
    {i : Nat} {piece : Piece} {m : MoveCand}
    (hm : m ∈ generatePseudoMoves b ep i piece) : CandOk b ep i piece m := by
  rcases htype : piece.type with _ | _ | _ | _ | _ | _ <;>
    simp only [generatePseudoMoves, htype, List.mem_append] at hm
  case pawn =>
    rcases hm with (hm | hm) | hm
    · exact pawnForward_sound hm htype
    · exact pawnSide_sound (Or.inl rfl) hm htype
    · exact pawnSide_sound (Or.inr rfl) hm htype
  case knight =>
    exact stepMoves_sound hm (by simp [htype])
      (fun hk => PieceType.noConfusion (htype.symm.trans hk))
  case bishop => exact slidingMoves_sound hm (by simp [htype]) (by simp [htype])
  case rook => exact slidingMoves_sound hm (by simp [htype]) (by simp [htype])
  case queen => exact slidingMoves_sound hm (by simp [htype]) (by simp [htype])
  case king =>
    rcases hm with hm | hm
    · exact stepMoves_sound hm (by simp [htype]) (fun _ => by decide)
    · exact generateCastlingMoves_sound hm htype

theorem boardSet_collapse (b : Board) (i : Nat) (v : Option Piece)
    (h : boardGet b i = v) : boardSet b i v = b := by
  rw [← h]; exact boardSet_boardGet_self b i

/-- The make/unmake round trip: applying a generator-produced candidate and
undoing it restores the exact board, provided the recorded en-passant target
square is empty (true of every state the game can actually reach). -/
theorem apply_undo_roundtrip {b : Board} {ep : Option EPTarget} {i : Nat}
    {piece : Piece} {m : MoveCand}
    (hL : b.length = 64)
    (hb : boardGet b i = some piece)
    (hco : CandOk b ep i piece m)
    (hepok : ∀ e, ep = some e → boardGet b e.index = none) :
    ∃ pr : Board × MoveState, applyMove b i m = some pr ∧ undoMove pr.1 pr.2 = b := by
  have hiL : i < b.length := boardGet_isSome_lt b i piece hb
  have hi64 : i < 64 := by omega
  cases hco with
  | normal hfrom hcastle henp hepc hpromo hdouble hto64 hpawnshape hkingshape =>
    cases hpm : m.promotion with
    | none =>
      have happly : applyMove b i m = some
          (boardSet (boardSet b i none) m.toSq (some { piece with hasMoved := true }),
           { piece := { piece with hasMoved := true }, fromSq := i, toSq := m.toSq,
             captured := boardGet (boardSet b i none) m.toSq, enPassantCaptured := none,
             enPassantCaptureIndex := none, promotion := none,
             originalType := piece.type, originalHasMoved := piece.hasMoved,
             rookMove := none }) := by
        simp [applyMove, hb, hcastle, henp, hepc, hpm]
      refine ⟨_, happly, ?_⟩
      have hundo : undoMove
          (boardSet (boardSet b i none) m.toSq (some { piece with hasMoved := true }))
          { piece := { piece with hasMoved := true }, fromSq := i, toSq := m.toSq,
            captured := boardGet (boardSet b i none) m.toSq, enPassantCaptured := none,
            enPassantCaptureIndex := none, promotion := none,
            originalType := piece.type, originalHasMoved := piece.hasMoved,
            rookMove := none } =
          boardSet (boardSet (boardSet (boardSet b i none) m.toSq
              (some { piece with hasMoved := true })) m.toSq
              (boardGet (boardSet b i none) m.toSq)) i (some piece) := rfl
      rw [hundo, boardSet_boardSet_self, boardSet_collapse _ _ _ rfl,
        boardSet_boardSet_self, boardSet_collapse _ _ _ hb]
    | some pt =>
      have happly : applyMove b i m = some
          (boardSet (boardSet b i none) m.toSq
              (some { piece with hasMoved := true, type := pt }),
           { piece := { piece with hasMoved := true, type := pt }, fromSq := i,
             toSq := m.toSq, captured := boardGet (boardSet b i none) m.toSq,
             enPassantCaptured := none, enPassantCaptureIndex := none,
             promotion := some pt, originalType := piece.type,
             originalHasMoved := piece.hasMoved, rookMove := none }) := by
        simp [applyMove, hb, hcastle, henp, hepc, hpm]
      refine ⟨_, happly, ?_⟩
      have hundo : undoMove
          (boardSet (boardSet b i none) m.toSq
              (some { piece with hasMoved := true, type := pt }))
          { piece := { piece with hasMoved := true, type := pt }, fromSq := i,
            toSq := m.toSq, captured := boardGet (boardSet b i none) m.toSq,
            enPassantCaptured := none, enPassantCaptureIndex := none,
            promotion := some pt, originalType := piece.type,
            originalHasMoved := piece.hasMoved, rookMove := none } =
          boardSet (boardSet (boardSet (boardSet b i none) m.toSq
              (some { piece with hasMoved := true, type := pt })) m.toSq
              (boardGet (boardSet b i none) m.toSq)) i (some piece) := rfl
      rw [hundo, boardSet_boardSet_self, boardSet_collapse _ _ _ rfl,
        boardSet_boardSet_self, boardSet_collapse _ _ _ hb]
  | enpassant e ci cp hfrom hcastle henp hpromo hepc hepe hidx hcc hpawn hcp hcpt
      hcpc hcoords =>
    obtain ⟨offset, hoffs, honT, htoEq, hciEq⟩ := hcoords
    have hdirpm : pawnDir piece.color = -1 ∨ pawnDir piece.color = 1 := by
      cases piece.color <;> simp [pawnDir]
    have honT' : 0 ≤ indexRow i + pawnDir piece.color ∧
        indexRow i + pawnDir piece.color < 8 ∧
        0 ≤ indexCol i + offset ∧ indexCol i + offset < 8 := by
      simpa [isOnBoard] using honT
    have htoNat : m.toSq = ((indexRow i + pawnDir piece.color) * 8 +
        (indexCol i + offset)).toNat := by rw [htoEq]; rfl
    have hciNat : ci = (indexRow i * 8 + (indexCol i + offset)).toNat := by
      rw [hciEq]; rfl
    have hto_ne_i : m.toSq ≠ i := by
      rcases hdirpm with h1 | h1 <;> rcases hoffs with h2 | h2 <;>
        rw [h1] at htoNat honT' <;> rw [h2] at htoNat hciNat honT' <;>
        simp only [indexRow, indexCol] at htoNat hciNat honT' <;> omega
    have hci_ne_i : ci ≠ i := by
      rcases hdirpm with h1 | h1 <;> rcases hoffs with h2 | h2 <;>
        rw [h1] at htoNat honT' <;> rw [h2] at htoNat hciNat honT' <;>
        simp only [indexRow, indexCol] at htoNat hciNat honT' <;> omega
    have hto_ne_ci : m.toSq ≠ ci := by
      rcases hdirpm with h1 | h1 <;> rcases hoffs with h2 | h2 <;>
        rw [h1] at htoNat honT' <;> rw [h2] at htoNat hciNat honT' <;>
        simp only [indexRow, indexCol] at htoNat hciNat honT' <;> omega
    have hTOnone : boardGet b m.toSq = none := by
      have := hepok e hepe
      rwa [hidx] at this
    have hcp1 : boardGet (boardSet b i none) ci = some cp := by
      rw [boardGet_boardSet_ne _ _ hci_ne_i]; exact hcp
    have happly : applyMove b i m = some
        (boardSet (boardSet (boardSet b i none) ci none) m.toSq
            (some { piece with hasMoved := true }),
         { piece := { piece with hasMoved := true }, fromSq := i, toSq := m.toSq,
           captured := none, enPassantCaptured := some cp,
           enPassantCaptureIndex := some ci, promotion := none,
           originalType := piece.type, originalHasMoved := piece.hasMoved,
           rookMove := none }) := by
      simp [applyMove, hb, hcastle, henp, hepc, hpromo, hcp1]
    refine ⟨_, happly, ?_⟩
    have hundo : undoMove
        (boardSet (boardSet (boardSet b i none) ci none) m.toSq
            (some { piece with hasMoved := true }))
        { piece := { piece with hasMoved := true }, fromSq := i, toSq := m.toSq,
          captured := none, enPassantCaptured := some cp,
          enPassantCaptureIndex := some ci, promotion := none,
          originalType := piece.type, originalHasMoved := piece.hasMoved,
          rookMove := none } =
        boardSet (boardSet (boardSet (boardSet (boardSet (boardSet b i none) ci none)
            m.toSq (some { piece with hasMoved := true })) m.toSq none) i
            (some piece)) ci (some cp) := rfl
    have hB3to : boardGet (boardSet (boardSet b i none) ci none) m.toSq = none := by
      rw [boardGet_boardSet_ne _ _ hto_ne_ci, boardGet_boardSet_ne _ _ hto_ne_i]
      exact hTOnone
    have hXi : boardGet (boardSet b ci none) i = some piece := by
      rw [boardGet_boardSet_ne _ _ (Ne.symm hci_ne_i)]; exact hb
    rw [hundo, boardSet_boardSet_self, boardSet_collapse _ _ _ hB3to,
      boardSet_comm b none none (Ne.symm hci_ne_i), boardSet_boardSet_self,
      boardSet_collapse _ _ _ hXi, boardSet_boardSet_self,
      boardSet_collapse _ _ _ hcp]
  | castle c rook hfrom hcastle henp hepc hpromo hking hmoved hsafe hrook hrt hrc
      hrm hside =>
    have hrf_ne_i : c.rookFrom ≠ i := by
      intro h
      rw [h, hb] at hrook
      injection hrook with h2
      rw [← h2, hking] at hrt
      exact PieceType.noConfusion hrt
    have hrf1 : boardGet (boardSet b i none) c.rookFrom = some rook := by
      rw [boardGet_boardSet_ne _ _ hrf_ne_i]; exact hrook
    have hkey : boardGet b c.rookTo = none ∧ boardGet b m.toSq = none ∧
        m.toSq ≠ c.rookTo := by
      rcases hcs : c.side with _ | _ <;> rw [castleSideFacts, hcs] at hside
      · obtain ⟨hrfE, hrtE, htoE, hon1, hon2, hemp1, hemp2, -, -⟩ := hside
        refine ⟨hrtE ▸ hemp1, htoE ▸ hemp2, ?_⟩
        rw [htoE, hrtE]
        intro h
        have := coordToIndex_inj hon2 hon1 h
        omega
      · obtain ⟨hrfE, hrtE, htoE, hon1, hon2, hon3, hemp1, hemp2, hemp3, -, -⟩ := hside
        refine ⟨hrtE ▸ hemp1, htoE ▸ hemp2, ?_⟩
        rw [htoE, hrtE]
        intro h
        have := coordToIndex_inj hon2 hon1 h
        omega
    obtain ⟨hrtEmp, htoEmp, hto_ne_rt⟩ := hkey
    have hrt_ne_i : c.rookTo ≠ i := fun h => by rw [h, hb] at hrtEmp; cases hrtEmp
    have hto_ne_i : m.toSq ≠ i := fun h => by rw [h, hb] at htoEmp; cases htoEmp
    have hrt_ne_rf : c.rookTo ≠ c.rookFrom := fun h => by
      rw [h, hrook] at hrtEmp; cases hrtEmp
    have hto_ne_rf : m.toSq ≠ c.rookFrom := fun h => by
      rw [h, hrook] at htoEmp; cases htoEmp
    have hcap : boardGet (boardSet (boardSet (boardSet b i none) c.rookFrom none)
        c.rookTo (some { rook with hasMoved := true })) m.toSq = none := by
      rw [boardGet_boardSet_ne _ _ hto_ne_rt, boardGet_boardSet_ne _ _ hto_ne_rf,
        boardGet_boardSet_ne _ _ hto_ne_i]
      exact htoEmp
    have happly : applyMove b i m = some
        (boardSet (boardSet (boardSet (boardSet b i none) c.rookFrom none)
            c.rookTo (some { rook with hasMoved := true })) m.toSq
            (some { piece with hasMoved := true }),
         { piece := { piece with hasMoved := true }, fromSq := i, toSq := m.toSq,
           captured := none, enPassantCaptured := none,
           enPassantCaptureIndex := none, promotion := none,
           originalType := piece.type, originalHasMoved := piece.hasMoved,
           rookMove := some (RookMoveState.mk (some { rook with hasMoved := true })
             c.rookFrom c.rookTo rook.hasMoved) }) := by
      simp [applyMove, hb, hcastle, henp, hepc, hpromo, hrf1, hcap]
    refine ⟨_, happly, ?_⟩
    have hundo : undoMove
        (boardSet (boardSet (boardSet (boardSet b i none) c.rookFrom none)
            c.rookTo (some { rook with hasMoved := true })) m.toSq
            (some { piece with hasMoved := true }))
        { piece := { piece with hasMoved := true }, fromSq := i, toSq := m.toSq,
          captured := none, enPassantCaptured := none,
          enPassantCaptureIndex := none, promotion := none,
          originalType := piece.type, originalHasMoved := piece.hasMoved,
          rookMove := some (RookMoveState.mk (some { rook with hasMoved := true })
            c.rookFrom c.rookTo rook.hasMoved) } =
        boardSet (boardSet (boardSet (boardSet (boardSet (boardSet (boardSet
            (boardSet b i none) c.rookFrom none) c.rookTo
            (some { rook with hasMoved := true })) m.toSq
            (some { piece with hasMoved := true })) m.toSq none) i (some piece))
            c.rookTo none) c.rookFrom (some rook) := rfl
    have hIget : boardGet (boardSet (boardSet b c.rookFrom none) c.rookTo
        (some { rook with hasMoved := true })) i = some piece := by
      rw [boardGet_boardSet_ne _ _ (Ne.symm hrt_ne_i),
        boardGet_boardSet_ne _ _ (Ne.symm hrf_ne_i)]
      exact hb
    have hRTget : boardGet (boardSet b c.rookFrom none) c.rookTo = none := by
      rw [boardGet_boardSet_ne _ _ hrt_ne_rf]; exact hrtEmp
    rw [hundo, boardSet_boardSet_self, boardSet_collapse _ _ _ hcap,
      boardSet_comm b none none (Ne.symm hrf_ne_i),
      boardSet_comm (boardSet b c.rookFrom none) none
        (some { rook with hasMoved := true }) (Ne.symm hrt_ne_i),
      boardSet_boardSet_self, boardSet_collapse _ _ _ hIget,
      boardSet_boardSet_self, boardSet_collapse _ _ _ hRTget,
      boardSet_boardSet_self, boardSet_collapse _ _ _ hrook]

theorem legalFilterGo_spec {color : PieceColor} {i : Nat} {b : Board}
    (ms : List MoveCand)
    (hall : ∀ m ∈ ms, ∃ pr : Board × MoveState,
      applyMove b i m = some pr ∧ undoMove pr.1 pr.2 = b) :
    legalFilterGo color i ms b = (ms.filter fun m => !checkAfter b color i m, b) := by
  induction ms with
  | nil => simp [legalFilterGo]
  | cons m ms ih =>
    obtain ⟨pr, happly, hundo⟩ := hall m (List.mem_cons_self m ms)
    have hrest := ih fun m' hm' => hall m' (List.mem_cons_of_mem m hm')
    simp only [legalFilterGo, happly, hundo, hrest, List.filter_cons,
      checkAfter, Bool.not_eq_true']
    cases hchk : isKingInCheck pr.1 color <;> simp

theorem generateLegalMoves_spec {b : Board} {ep : Option EPTarget} {i : Nat}
    {piece : Piece} {color : PieceColor}
    (hL : b.length = 64) (hb : boardGet b i = some piece) (hepok : epOk b ep) :
    generateLegalMoves b ep i piece color = (legalMovesPure b ep i piece color, b) := by
  unfold generateLegalMoves legalMovesPure
  exact legalFilterGo_spec _ fun m hm =>
    apply_undo_roundtrip hL hb (generatePseudoMoves_sound hm) hepok

theorem hasAnyLegalMovesAux_spec {ep : Option EPTarget} {color : PieceColor}
    {b : Board} (idxs : List Nat)
    (hL : b.length = 64) (hepok : epOk b ep) :
    hasAnyLegalMovesAux ep color idxs b =
      (idxs.any fun j =>
        match boardGet b j with
        | some p => p.color = color && !(legalMovesPure b ep j p color).isEmpty
        | none => false, b) := by
  induction idxs with
  | nil => simp [hasAnyLegalMovesAux]
  | cons j rest ih =>
    simp only [hasAnyLegalMovesAux, List.any_cons]
    cases hj : boardGet b j with
    | none => simp [ih]
    | some p =>
      dsimp only
      by_cases hc : p.color = color
      · rw [if_pos hc]
        rw [generateLegalMoves_spec hL hj hepok]
        by_cases hempty : (legalMovesPure b ep j p color).isEmpty
        · simp [hempty, ih, hc]
        · simp only [Bool.not_eq_true] at hempty
          simp [hempty, hc]
      · rw [if_neg hc]
        simp [ih, hc]

theorem hasAnyLegalMoves_spec {b : Board} {ep : Option EPTarget}
    {color : PieceColor} (hL : b.length = 64) (hepok : epOk b ep) :
    hasAnyLegalMoves b ep color = (hasAnyPure b ep color, b) := by
  unfold hasAnyLegalMoves hasAnyPure
  exact hasAnyLegalMovesAux_spec _ hL hepok

theorem WellFormed.epOk {g : ChessGame} (h : WellFormed g) :
    epOk g.board g.enPassantTarget :=
  fun e he => (h.2 e he).1

theorem boardSet_length (b : Board) (i : Nat) (v : Option Piece) :
    (boardSet b i v).length = b.length := by simp [boardSet]

theorem applyMove_length {b : Board} {i : Nat} {m : MoveCand}
    {pr : Board × MoveState} (h : applyMove b i m = some pr) :
    pr.1.length = b.length := by
  unfold applyMove at h
  split at h
  · cases h
  · repeat' split at h
    all_goals (cases h; repeat' split)
    all_goals simp_all [boardSet_length]

/-- The board shape an `applyMove` of a plain (non-castle, non-en-passant)
candidate produces. -/
theorem applyMove_normal_eq {b : Board} {i : Nat} {piece : Piece} {m : MoveCand}
    {pr : Board × MoveState}
    (hb : boardGet b i = some piece)
    (hcastle : m.castle = none) (henp : m.enPassant = false)
    (h : applyMove b i m = some pr) :
    pr.1 = boardSet (boardSet b i none) m.toSq
      (some { piece with hasMoved := true, type := m.promotion.getD piece.type }) := by
  rw [show applyMove b i m = some
      (boardSet (boardSet b i none) m.toSq
        (some { piece with hasMoved := true, type := m.promotion.getD piece.type }),
       { piece := { piece with hasMoved := true, type := m.promotion.getD piece.type },
         fromSq := i, toSq := m.toSq, captured := boardGet (boardSet b i none) m.toSq,
         enPassantCaptured := none, enPassantCaptureIndex := none,
         promotion := m.promotion, originalType := piece.type,
         originalHasMoved := piece.hasMoved, rookMove := none })
    from by simp [applyMove, hb, hcastle, henp]] at h
  cases h
  rfl

/-- The en-passant record produced by a successful move keeps the invariant:
it is only set by a generated pawn double step, whose crossed square stays
empty on the applied board and sits on row 2 or 5. -/
theorem newEp_wellFormed {g : ChessGame} {piece : Piece} {a t : Nat}
    {tm : MoveCand} {pr : Board × MoveState}
    (hp : boardGet g.board a = some piece)
    (hco : CandOk g.board g.enPassantTarget a piece tm)
    (htm : tm.toSq = t)
    (happ : applyMove g.board a tm = some pr) :
    ∀ e, updateEnPassantState piece.type (indexRow a) (indexCol a) (indexRow t)
        piece.color tm = some e →
      boardGet pr.1 e.index = none ∧
      (indexRow e.index = 2 ∨ indexRow e.index = 5) := by
  intro e he
  unfold updateEnPassantState at he
  split at he
  · cases he
  case isFalse hpawn =>
    split at he
    · cases he
    case isFalse hcond =>
      rw [not_not] at hpawn
      push_neg at hcond
      obtain ⟨habs, henp⟩ := hcond
      have henp2 : tm.enPassant = false := by
        revert henp; cases tm.enPassant <;> simp
      cases hco with
      | enpassant e' ci cp hfrom hcastle henp' hpromo hepc hepe hidx hcc hpawn'
          hcp hcpt hcpc hcoords =>
        cases henp'.symm.trans henp2
      | castle c rook hfrom hcastle henp' hepc hpromo hking hmoved hsafe hrook hrt
          hrc hrm hside =>
        rw [hpawn] at hking
        cases hking
      | normal hfrom hcastle henp' hepc hpromo hdouble hto64 hpawnshape hkingshape =>
        obtain ⟨hcolEq, hfromRow, htoRow, htoEmpty, hmidEmpty⟩ :=
          hdouble hpawn (by rw [htm]; exact habs)
        cases he
        set midRow : Int := (indexRow a + indexRow t) / 2 with hmid
        have hrows : (piece.color = .white →
              indexRow a = 6 ∧ indexRow t = 4 ∧ midRow = 5) ∧
            (piece.color = .black →
              indexRow a = 1 ∧ indexRow t = 3 ∧ midRow = 2) := by
          constructor <;> intro hcol <;>
            rw [← htm] at * <;>
            simp only [pawnStartRow, pawnDir, hcol] at hfromRow htoRow <;>
            norm_num at hfromRow htoRow <;>
            refine ⟨hfromRow, htoRow, ?_⟩ <;> rw [hmid, hfromRow, htoRow] <;> decide
        have hcolb : 0 ≤ indexCol a ∧ indexCol a < 8 := by
          simp only [indexCol]; omega
        have hmidRow25 : midRow = 5 ∨ midRow = 2 := by
          cases hcol : piece.color
          · exact Or.inl (hrows.1 hcol).2.2
          · exact Or.inr (hrows.2 hcol).2.2
        have honMid : isOnBoard midRow (indexCol a) = true := by
          simp only [isOnBoard, decide_eq_true_eq]
          rcases hmidRow25 with h | h <;> rw [h] <;>
            exact ⟨by norm_num, by norm_num, hcolb.1, hcolb.2⟩
        have hrowMid : indexRow (coordToIndex midRow (indexCol a)) = midRow :=
          indexRow_coordToIndex _ _ honMid
        have hfromRowNe : indexRow a ≠ midRow := by
          cases hcol : piece.color
          · rw [(hrows.1 hcol).1, (hrows.1 hcol).2.2]; decide
          · rw [(hrows.2 hcol).1, (hrows.2 hcol).2.2]; decide
        have htoRowNe : indexRow t ≠ midRow := by
          cases hcol : piece.color
          · rw [(hrows.1 hcol).2.1, (hrows.1 hcol).2.2]; decide
          · rw [(hrows.2 hcol).2.1, (hrows.2 hcol).2.2]; decide
        have hmid_ne_a : coordToIndex midRow (indexCol a) ≠ a := by
          intro hEq
          exact hfromRowNe (by rw [← hrowMid, hEq])
        have hmid_ne_t : coordToIndex midRow (indexCol a) ≠ tm.toSq := by
          rw [htm]
          intro hEq
          exact htoRowNe (by rw [← hrowMid, hEq])
        constructor
        · rw [applyMove_normal_eq hp hcastle henp' happ,
            boardGet_boardSet_ne _ _ hmid_ne_t, boardGet_boardSet_ne _ _ hmid_ne_a]
          rw [htm] at hmidEmpty
          exact hmidEmpty
        · rw [hrowMid]
          rcases hmidRow25 with h | h <;> simp [h]

/-- On well-formed states the threaded `move` computes exactly its pure
mirror: every make/unmake cycle restores the board it started from. -/
theorem move_eq_movePure (g : ChessGame) (a t : Nat) (hwf : WellFormed g) :
    ChessGame.move g a t = movePure g a t := by
  unfold ChessGame.move movePure
  split
  · rfl
  · cases hp : boardGet g.board a with
    | none => rfl
    | some piece =>
      dsimp only
      split
      · rfl
      case isFalse hcol =>
        rw [generateLegalMoves_spec hwf.1 hp hwf.epOk]
        dsimp only
        cases hfind : (legalMovesPure g.board g.enPassantTarget a piece
            piece.color).find? (fun m => m.toSq = t) with
        | none => rfl
        | some tm =>
          dsimp only
          cases happ : applyMove g.board a tm with
          | none => rfl
          | some pr =>
            dsimp only
            have hmem : tm ∈ legalMovesPure g.board g.enPassantTarget a piece
                piece.color := List.mem_of_find?_eq_some hfind
            have hco : CandOk g.board g.enPassantTarget a piece tm :=
              generatePseudoMoves_sound (List.mem_of_mem_filter hmem)
            have htm : tm.toSq = t := by
              have := List.find?_some hfind
              simpa using this
            have hL4 : pr.1.length = 64 := by
              rw [applyMove_length happ]; exact hwf.1
            have hepok4 : epOk pr.1 (updateEnPassantState piece.type (indexRow a)
                (indexCol a) (indexRow t) piece.color tm) :=
              fun e he => (newEp_wellFormed hp hco htm happ e he).1
            rw [hasAnyLegalMoves_spec hL4 hepok4]

theorem initial_wellFormed : WellFormed ChessGame.initial := by decide

theorem move_preserves_wellFormed {g g' : ChessGame} {a t : Nat}
    {r : MoveResult} (hwf : WellFormed g)
    (h : ChessGame.move g a t = some (g', r)) : WellFormed g' := by
  rw [move_eq_movePure g a t hwf] at h
  unfold movePure at h
  split at h
  · cases h; exact hwf
  · split at h
    · cases h; exact hwf
    · rename_i piece hp
      split at h
      · cases h; exact hwf
      · split at h
        · cases h; exact hwf
        · rename_i hcol tm hfind
          split at h
          · cases h
          · rename_i b4 st happ
            have hmem : tm ∈ legalMovesPure g.board g.enPassantTarget a piece
                piece.color := List.mem_of_find?_eq_some hfind
            have hco : CandOk g.board g.enPassantTarget a piece tm :=
              generatePseudoMoves_sound (List.mem_of_mem_filter hmem)
            have htm : tm.toSq = t := by
              have := List.find?_some hfind
              simpa using this
            cases h
            refine ⟨?_, ?_⟩
            · have := applyMove_length happ
              simp only at this
              simpa [hwf.1] using this
            · exact newEp_wellFormed hp hco htm happ

theorem reachable_wellFormed {g : ChessGame} (h : Reachable g) : WellFormed g := by
  induction h with
  | init => exact initial_wellFormed
  | step hg hmv hs ih => exact move_preserves_wellFormed ih hmv

/-- Failed `move` calls leave the state untouched on well-formed states. -/
theorem move_fail_eq {g g' : ChessGame} {r : MoveResult} {a t : Nat}
    (hwf : WellFormed g) (h : ChessGame.move g a t = some (g', r))
    (hf : r.success = false) : g' = g := by
  rw [move_eq_movePure g a t hwf] at h
  unfold movePure at h
  split at h
  · cases h; rfl
  · split at h
    · cases h; rfl
    · split at h
      · cases h; rfl
      · split at h
        · cases h; rfl
        · split at h
          · cases h
          · cases h
            cases hf

/-- C3: on every reachable game state, no candidate that `getLegalMoves`
returns leaves the mover's own king attacked on the board `applyMove`
produces. -/
theorem getLegalMoves_no_self_check (g : ChessGame) (hg : Reachable g)
    (i : Nat) (m : MoveCand) (hm : m ∈ ChessGame.getLegalMoves g i) :
    ∃ pr : Board × MoveState, applyMove g.board i m = some pr ∧
      isKingInCheck pr.1 g.currentPlayer = false := by
  have hwf := reachable_wellFormed hg
  unfold ChessGame.getLegalMoves at hm
  split at hm
  · simp at hm
  · split at hm
    · simp at hm
    · rename_i piece hp
      split at hm
      case isFalse => simp at hm
      case isTrue hcol =>
        rw [generateLegalMoves_spec hwf.1 hp hwf.epOk] at hm
        unfold legalMovesPure at hm
        have hchk := List.of_mem_filter hm
        rw [Bool.not_eq_true'] at hchk
        unfold checkAfter at hchk
        cases happ : applyMove g.board i m with
        | none => rw [happ] at hchk; cases hchk
        | some pr =>
          rw [happ] at hchk
          exact ⟨pr, rfl, by rw [← hcol]; exact hchk⟩

/-- C3 witness: from the freshly constructed game, the pawn push a2→a3 is
among the legal moves of square 48 and passes the self-check test. -/
theorem getLegalMoves_no_self_check_witness :
    ({ fromSq := 48, toSq := 40 } : MoveCand) ∈
        ChessGame.getLegalMoves ChessGame.initial 48 ∧
    ∃ pr : Board × MoveState,
      applyMove ChessGame.initial.board 48 { fromSq := 48, toSq := 40 } = some pr ∧
        isKingInCheck pr.1 ChessGame.initial.currentPlayer = false :=
  ⟨by decide, getLegalMoves_no_self_check ChessGame.initial Reachable.init 48
    { fromSq := 48, toSq := 40 } (by decide)⟩

/-- C4 counterexample: on `epCexBoard` the generator emits the en-passant
candidate although its destination square is occupied; applying and undoing
it does not restore the board (the knight on d6 is lost). -/
theorem applyMove_undoMove_roundtrip_cex :
    epCexMove ∈ generatePseudoMoves epCexBoard epCexTarget 28 epCexPawn ∧
    (applyMove epCexBoard 28 epCexMove).isSome = true ∧
    (applyMove epCexBoard 28 epCexMove).map (fun pr => undoMove pr.1 pr.2) ≠
      some epCexBoard := by decide

/-- C4 (amended): for every 64-slot board and generator-produced candidate,
applying and then undoing restores the identical board, provided the
recorded en-passant target square is empty — as it is in every reachable
state. -/
theorem applyMove_undoMove_roundtrip (b : Board) (ep : Option EPTarget)
    (i : Nat) (piece : Piece) (m : MoveCand)
    (hL : b.length = 64)
    (hb : boardGet b i = some piece)
    (hm : m ∈ generatePseudoMoves b ep i piece)
    (hepok : ∀ e, ep = some e → boardGet b e.index = none) :
    ∃ pr : Board × MoveState, applyMove b i m = some pr ∧
      undoMove pr.1 pr.2 = b :=
  apply_undo_roundtrip hL hb (generatePseudoMoves_sound hm) hepok

/-- C4 witness: the a2 pawn push of the starting board round-trips. -/
theorem applyMove_undoMove_roundtrip_witness :
    ∃ pr : Board × MoveState,
      applyMove ChessGame.initial.board 48 { fromSq := 48, toSq := 40 } = some pr ∧
        undoMove pr.1 pr.2 = ChessGame.initial.board :=
  applyMove_undoMove_roundtrip ChessGame.initial.board none 48
    { type := .pawn, color := .white, hasMoved := false, id := 17 }
    { fromSq := 48, toSq := 40 } (by decide) (by decide) (by decide)
    (fun e he => by cases he)

/-- C5 counterexample: on the contrived `epCexGame`, a `move` call that is
rejected with "Illegal move" still mutates the stored board — the knight on
d6 vanishes during the legality scan's imperfect undo. -/
theorem move_reject_mutates_cex :
    (ChessGame.move epCexGame 28 0).map (fun p => p.2.success) = some false ∧
    (ChessGame.move epCexGame 28 0).map Prod.fst ≠ some epCexGame := by decide

/-- C5 (amended): on every well-formed state — in particular on every
reachable one, where the recorded en-passant target square is empty — a
`move` call that returns `success := false` leaves the whole game state
(board, current player, history, winner, en-passant record, last move)
exactly as it was, despite the transient apply/undo mutations of the
legality check. -/
theorem move_fail_leaves_state_unchanged (g g' : ChessGame) (r : MoveResult)
    (a t : Nat) (hwf : WellFormed g)
    (h : ChessGame.move g a t = some (g', r)) (hs : r.success = false) :
    g' = g ∧ g'.board = g.board ∧ g'.currentPlayer = g.currentPlayer ∧
    g'.moveHistory = g.moveHistory ∧ g'.winner = g.winner ∧
    g'.enPassantTarget = g.enPassantTarget ∧ g'.lastMove = g.lastMove := by
  have heq := move_fail_eq hwf h hs
  subst heq
  exact ⟨rfl, rfl, rfl, rfl, rfl, rfl, rfl⟩

/-- C5 witness: the rejected request 48→0 on the starting position changes
nothing. -/
theorem move_fail_leaves_state_unchanged_witness :
    ∃ p : ChessGame × MoveResult, ChessGame.move ChessGame.initial 48 0 = some p ∧
      p.1 = ChessGame.initial := by
  rcases hmv : ChessGame.move ChessGame.initial 48 0 with _ | ⟨g2, r2⟩
  · exact absurd hmv (by decide)
  · have hs : r2.success = false := by
      have hd : (ChessGame.move ChessGame.initial 48 0).map
          (fun q => q.2.success) = some false := by decide
      rw [hmv] at hd
      simpa using hd
    exact ⟨(g2, r2), rfl, (move_fail_leaves_state_unchanged ChessGame.initial g2 r2
      48 0 (by decide) hmv hs).1⟩

/-- Full decomposition of a successful `move` on a well-formed state into
the pure readings of its steps. -/
theorem move_success_spec {g g' : ChessGame} {r : MoveResult} {a t : Nat}
    (hwf : WellFormed g)
    (h : ChessGame.move g a t = some (g', r)) (hs : r.success = true) :
    ∃ (piece : Piece) (tm : MoveCand) (b4 : Board) (st : MoveState),
      g.winner = none ∧
      boardGet g.board a = some piece ∧
      piece.color = g.currentPlayer ∧
      (legalMovesPure g.board g.enPassantTarget a piece piece.color).find?
          (fun m => m.toSq = t) = some tm ∧
      tm.toSq = t ∧
      applyMove g.board a tm = some (b4, st) ∧
      (let newEp := updateEnPassantState piece.type (indexRow a) (indexCol a)
          (indexRow t) piece.color tm
       let opponent := piece.color.opposite
       let opponentInCheck := isKingInCheck b4 opponent
       let anyMoves := hasAnyPure b4 newEp opponent
       let newWinner : Option Winner := if !anyMoves then
           (if opponentInCheck then some (winnerOfColor piece.color)
            else some .draw)
         else none
       let historyEntry := createHistoryEntry piece.type piece.color a t
         (st.captured.or st.enPassantCaptured) tm.promotion opponentInCheck
         (!anyMoves && opponentInCheck) (!anyMoves && !opponentInCheck)
         (tm.castle.map (·.side)) tm.enPassant
       g' = { board := b4, currentPlayer := opponent,
              moveHistory := g.moveHistory ++ [historyEntry],
              nextPieceId := g.nextPieceId,
              lastMove := some (LastMove.mk a t (tm.castle.map fun c =>
                LastRook.mk c.rookFrom c.rookTo)),
              winner := newWinner, enPassantTarget := newEp } ∧
       r = { success := true, captured := st.captured.or st.enPassantCaptured,
             check := if opponentInCheck then some opponent else none,
             checkmate := !anyMoves && opponentInCheck,
             stalemate := !anyMoves && !opponentInCheck,
             historyEntry := some historyEntry, winner := newWinner,
             castle := tm.castle, enPassant := tm.enPassant }) := by
  rw [move_eq_movePure g a t hwf] at h
  unfold movePure at h
  split at h
  case isTrue hw => cases h; cases hs
  case isFalse hw =>
    split at h
    · cases h; cases hs
    · rename_i piece hp
      split at h
      case isTrue => cases h; cases hs
      case isFalse hcol =>
        split at h
        case h_1 => cases h; cases hs
        case h_2 tm hfind =>
          split at h
          case h_1 => cases h
          case h_2 b4 st happ =>
            cases h
            rw [not_not] at hcol
            refine ⟨piece, tm, b4, st, ?_, hp, hcol, hfind, ?_, happ, rfl, rfl⟩
            · simpa using hw
            · simpa using List.find?_some hfind

/-- C9: after any successful `move` on a well-formed state, if the opponent
— the new current player — has no legal move on any square, the same call
ends the game: checkmate with the mover as winner when the opponent's king
is attacked, stalemate with a drawn result otherwise; afterwards
`getLegalMoves` returns the empty list for every square and every further
`move` fails. -/
theorem move_ends_game_when_opponent_has_no_moves (g g' : ChessGame)
    (r : MoveResult) (a t : Nat) (hwf : WellFormed g)
    (h : ChessGame.move g a t = some (g', r)) (hs : r.success = true)
    (hnm : hasAnyPure g'.board g'.enPassantTarget g'.currentPlayer = false) :
    (isKingInCheck g'.board g'.currentPlayer = true →
      r.checkmate = true ∧ g'.winner = some (winnerOfColor g.currentPlayer) ∧
      r.winner = g'.winner) ∧
    (isKingInCheck g'.board g'.currentPlayer = false →
      r.stalemate = true ∧ g'.winner = some Winner.draw ∧ r.winner = g'.winner) ∧
    (∀ j, ChessGame.getLegalMoves g' j = []) ∧
    (∀ x y, ∃ r' : MoveResult, ChessGame.move g' x y = some (g', r') ∧
      r'.success = false) := by
  obtain ⟨piece, tm, b4, st, hw, hp, hcol, hfind, htm, happ, hg', hr⟩ :=
    move_success_spec hwf h hs
  subst hg' hr
  dsimp only at hnm ⊢
  rw [hnm]
  have hwin : ∀ w : Option Winner,
      (if isKingInCheck b4 piece.color.opposite then
        some (winnerOfColor piece.color) else some Winner.draw).isSome = true := by
    intro _
    cases isKingInCheck b4 piece.color.opposite <;> simp
  refine ⟨?_, ?_, ?_, ?_⟩
  · intro hchk
    rw [hchk, hcol]
    simp
  · intro hchk
    rw [hchk]
    simp
  · intro j
    unfold ChessGame.getLegalMoves
    rw [if_pos]
    simpa using hwin none
  · intro x y
    refine ⟨{ success := false, message := some "Game over" }, ?_, rfl⟩
    unfold ChessGame.move
    rw [if_pos]
    simpa using hwin none

/-- C9 witness: Re1→e8 on `mateGame` checkmates — the winner is set, every
`getLegalMoves` reply is empty and every further `move` fails. -/
theorem move_ends_game_when_opponent_has_no_moves_witness :
    ∃ gr : ChessGame × MoveResult, ChessGame.move mateGame 60 4 = some gr ∧
      gr.2.checkmate = true ∧
      gr.1.winner = some (winnerOfColor mateGame.currentPlayer) ∧
      (∀ j, ChessGame.getLegalMoves gr.1 j = []) ∧
      (∀ x y, ∃ r' : MoveResult, ChessGame.move gr.1 x y = some (gr.1, r') ∧
        r'.success = false) := by
  rcases hmv : ChessGame.move mateGame 60 4 with _ | ⟨g2, r2⟩
  · exact absurd hmv (by decide)
  · have hs : r2.success = true := by
      have hd : (ChessGame.move mateGame 60 4).map (fun q => q.2.success) =
          some true := by decide
      rw [hmv] at hd
      simpa using hd
    have hnm : hasAnyPure g2.board g2.enPassantTarget g2.currentPlayer = false := by
      have hd : (ChessGame.move mateGame 60 4).map
          (fun q => hasAnyPure q.1.board q.1.enPassantTarget q.1.currentPlayer) =
          some false := by decide
      rw [hmv] at hd
      simpa using hd
    have hchk : isKingInCheck g2.board g2.currentPlayer = true := by
      have hd : (ChessGame.move mateGame 60 4).map
          (fun q => isKingInCheck q.1.board q.1.currentPlayer) = some true := by
        decide
      rw [hmv] at hd
      simpa using hd
    obtain ⟨hA, _, hC, hD⟩ := move_ends_game_when_opponent_has_no_moves
      mateGame g2 r2 60 4 (by decide) hmv hs hnm
    obtain ⟨h1, h2, _⟩ := hA hchk
    exact ⟨(g2, r2), rfl, h1, h2, hC, hD⟩

/-- C8: promotion is forced to queen — every generator-produced pawn
candidate landing on a back rank carries the queen promotion (given the
en-passant row restriction reachable states satisfy, first conjunct); the
caller-supplied third argument to `move` has no effect; and a successful
pawn move onto a back rank leaves a queen (with the pawn's identity) on the
target square. -/
theorem promotion_forced_to_queen :
    (∀ g : ChessGame, Reachable g → epOnMiddleRows g) ∧
    (∀ (b : Board) (ep : Option EPTarget) (i : Nat) (piece : Piece)
      (m : MoveCand),
      (∀ e, ep = some e → indexRow e.index = 2 ∨ indexRow e.index = 5) →
      piece.type = .pawn →
      m ∈ generatePseudoMoves b ep i piece →
      (indexRow m.toSq = 0 ∨ indexRow m.toSq = 7) →
      m.promotion = some .queen) ∧
    (∀ (g : ChessGame) (a t : Nat) (p1 p2 : Option PieceType),
      ChessGame.movePromotion g a t p1 = ChessGame.movePromotion g a t p2) ∧
    (∀ (g g' : ChessGame) (r : MoveResult) (a t : Nat) (piece : Piece),
      WellFormed g → ChessGame.move g a t = some (g', r) → r.success = true →
      boardGet g.board a = some piece → piece.type = .pawn →
      (indexRow t = 0 ∨ indexRow t = 7) →
      ∃ q : Piece, boardGet g'.board t = some q ∧ q.type = .queen ∧
        q.id = piece.id) := by
  have hgen : ∀ (b : Board) (ep : Option EPTarget) (i : Nat) (piece : Piece)
      (m : MoveCand),
      (∀ e, ep = some e → indexRow e.index = 2 ∨ indexRow e.index = 5) →
      piece.type = .pawn →
      m ∈ generatePseudoMoves b ep i piece →
      (indexRow m.toSq = 0 ∨ indexRow m.toSq = 7) →
      m.promotion = some .queen := by
    intro b ep i piece m hepr hp hm hback
    cases generatePseudoMoves_sound hm with
    | normal hfrom hcastle henp hepc hpromo hdouble hto64 hpawnshape hkingshape =>
      rw [hpromo, if_pos hp]
      rcases hback with h | h <;> simp [pawnPromoRow, h]
    | enpassant e ci cp hfrom hcastle henp hpromo hepc hepe hidx hcc hpawn hcp
        hcpt hcpc hcoords =>
      have := hepr e hepe
      rw [hidx] at this
      omega
    | castle c rook hfrom hcastle henp hepc hpromo hking hmoved hsafe hrook hrt
        hrc hrm hside =>
      exact absurd hking (by simp [hp])
  refine ⟨fun g hg e he => ((reachable_wellFormed hg).2 e he).2, hgen,
    fun _ _ _ _ _ => rfl, ?_⟩
  intro g g' r a t piece hwf hmv hs hp hpt hback
  obtain ⟨piece', tm, b4, st, hw, hp', hcol, hfind, htm, happ, hg', hr⟩ :=
    move_success_spec hwf hmv hs
  have hpe : piece = piece' := Option.some_inj.mp (hp.symm.trans hp')
  subst hpe
  have hmem : tm ∈ legalMovesPure g.board g.enPassantTarget a piece piece.color :=
    List.mem_of_find?_eq_some hfind
  have hco : CandOk g.board g.enPassantTarget a piece tm :=
    generatePseudoMoves_sound (List.mem_of_mem_filter hmem)
  have hbacktm : indexRow tm.toSq = 0 ∨ indexRow tm.toSq = 7 := by
    rw [htm]; exact hback
  have hpromoQ : tm.promotion = some .queen :=
    hgen g.board g.enPassantTarget a piece tm
      (fun e he => ((hwf.2 e he)).2) hpt
      (List.mem_of_mem_filter hmem) hbacktm
  cases hco with
  | enpassant e ci cp hfrom hcastle henp hpromo hepc hepe hidx hcc hpawn hcp
      hcpt hcpc hcoords =>
    rw [hpromo] at hpromoQ
    cases hpromoQ
  | castle c rook hfrom hcastle henp hepc hpromo hking hmoved hsafe hrook hrt
      hrc hrm hside =>
    exact absurd hking (by simp [hpt])
  | normal hfrom hcastle henp hepc hpromo hdouble hto64 hpawnshape hkingshape =>
    have hb4 : b4 = boardSet (boardSet g.board a none) tm.toSq
        (some (Piece.mk (tm.promotion.getD piece.type) piece.color true piece.id)) := by
      have := applyMove_normal_eq hp' hcastle henp happ
      simpa using this
    refine ⟨Piece.mk (tm.promotion.getD piece.type) piece.color true piece.id,
      ?_, by rw [hpromoQ]; rfl, rfl⟩
    rw [hg']
    show boardGet b4 t = _
    rw [hb4, ← htm, boardGet_boardSet_self]
    rw [boardSet_length, hwf.1]
    exact hto64

/-- C8 witness: the generated a7→a8 candidate carries the queen promotion,
the extra argument is dropped, and after the move a queen with the pawn's
id stands on a8. -/
theorem promotion_forced_to_queen_witness :
    ({ fromSq := 8, toSq := 0, promotion := some .queen } : MoveCand) ∈
        generatePseudoMoves promoGame.board promoGame.enPassantTarget 8
          { type := .pawn, color := .white, hasMoved := true, id := 1 } ∧
    ({ fromSq := 8, toSq := 0, promotion := some .queen } : MoveCand).promotion =
        some .queen ∧
    ChessGame.movePromotion promoGame 8 0 (some .knight) =
      ChessGame.movePromotion promoGame 8 0 none ∧
    ∃ gr : ChessGame × MoveResult, ChessGame.move promoGame 8 0 = some gr ∧
      ∃ q : Piece, boardGet gr.1.board 0 = some q ∧ q.type = .queen ∧ q.id = 1 := by
  refine ⟨by decide, ?_, promotion_forced_to_queen.2.2.1 promoGame 8 0
    (some .knight) none, ?_⟩
  · exact promotion_forced_to_queen.2.1 promoGame.board promoGame.enPassantTarget
      8 { type := .pawn, color := .white, hasMoved := true, id := 1 }
      { fromSq := 8, toSq := 0, promotion := some .queen }
      (fun e he => by cases he) rfl (by decide) (by decide)
  · rcases hmv : ChessGame.move promoGame 8 0 with _ | ⟨g2, r2⟩
    · exact absurd hmv (by decide)
    · have hs : r2.success = true := by
        have hd : (ChessGame.move promoGame 8 0).map (fun q => q.2.success) =
            some true := by decide
        rw [hmv] at hd
        simpa using hd
      exact ⟨(g2, r2), rfl, promotion_forced_to_queen.2.2.2 promoGame g2 r2 8 0
        { type := .pawn, color := .white, hasMoved := true, id := 1 }
        (by decide) hmv hs (by decide) rfl (by decide)⟩

theorem applyMove_isSome {b : Board} {i : Nat} {piece : Piece} (m : MoveCand)
    (hb : boardGet b i = some piece) : (applyMove b i m).isSome = true := by
  simp only [applyMove, hb]
  rfl

/-- The board and record an en-passant `applyMove` produces. -/
theorem applyMove_ep_eq {b : Board} {i ci : Nat} {piece : Piece} {m : MoveCand}
    (hb : boardGet b i = some piece)
    (hcastle : m.castle = none) (henp : m.enPassant = true)
    (hepc : m.enPassantCapture = some ci) :
    applyMove b i m = some
      (boardSet (boardSet (boardSet b i none) ci none) m.toSq
        (some (Piece.mk (m.promotion.getD piece.type) piece.color true piece.id)),
       MoveState.mk (Piece.mk (m.promotion.getD piece.type) piece.color true piece.id)
         i m.toSq none (boardGet (boardSet b i none) ci) (some ci) m.promotion
         piece.type piece.hasMoved none) := by
  simp [applyMove, hb, hcastle, henp, hepc]

/-- Index distinctness of a generated en-passant candidate's squares. -/
theorem epCand_distinct {i ci toSq : Nat} {color : PieceColor} {offset : Int}
    (hi : i < 64)
    (hoffs : offset = -1 ∨ offset = 1)
    (hon : isOnBoard (indexRow i + pawnDir color) (indexCol i + offset) = true)
    (hto : toSq = coordToIndex (indexRow i + pawnDir color) (indexCol i + offset))
    (hci : ci = coordToIndex (indexRow i) (indexCol i + offset)) :
    toSq ≠ i ∧ ci ≠ i ∧ toSq ≠ ci ∧ ci < 64 ∧ toSq < 64 := by
  have hdirpm : pawnDir color = -1 ∨ pawnDir color = 1 := by
    cases color <;> simp [pawnDir]
  have honx : 0 ≤ indexRow i + pawnDir color ∧ indexRow i + pawnDir color < 8 ∧
      0 ≤ indexCol i + offset ∧ indexCol i + offset < 8 := by
    simpa [isOnBoard] using hon
  have htoNat : toSq = ((indexRow i + pawnDir color) * 8 +
      (indexCol i + offset)).toNat := by rw [hto]; rfl
  have hciNat : ci = (indexRow i * 8 + (indexCol i + offset)).toNat := by
    rw [hci]; rfl
  rcases hdirpm with h1 | h1 <;> rcases hoffs with h2 | h2 <;>
    rw [h1] at htoNat honx <;> rw [h2] at htoNat hciNat honx <;>
    simp only [indexRow, indexCol] at htoNat hciNat honx <;>
    refine ⟨?_, ?_, ?_, ?_, ?_⟩ <;> omega

/-- When `find?` locates a legal candidate for the requested target square,
`move` succeeds. -/
theorem move_found_success {g : ChessGame} {piece : Piece} {a t : Nat}
    {tm : MoveCand}
    (hwf : WellFormed g) (hw : g.winner = none)
    (hp : boardGet g.board a = some piece) (hcol : piece.color = g.currentPlayer)
    (hfind : (legalMovesPure g.board g.enPassantTarget a piece
      piece.color).find? (fun m => m.toSq = t) = some tm) :
    ∃ (g' : ChessGame) (r : MoveResult),
      ChessGame.move g a t = some (g', r) ∧ r.success = true := by
  rw [move_eq_movePure g a t hwf]
  unfold movePure
  rw [if_neg (by simp [hw]), hp]
  dsimp only
  rw [if_neg (by simp [hcol]), hfind]
  dsimp only
  obtain ⟨pr, hpr⟩ := Option.isSome_iff_exists.mp (applyMove_isSome tm hp)
  rcases pr with ⟨b4, st⟩
  rw [hpr]
  exact ⟨_, _, rfl, rfl⟩

/-- The generator emits the en-passant capture whenever the recorded target
lies diagonally ahead of the pawn and the enemy pawn stands beside it. -/
theorem pawnEp_complete {b : Board} {i ci : Nat} {piece cp : Piece}
    {e : EPTarget} {offset : Int}
    (hpt : piece.type = .pawn)
    (hecc : e.captureColor = piece.color)
    (hoff : offset = -1 ∨ offset = 1)
    (hon : isOnBoard (indexRow i + pawnDir piece.color)
      (indexCol i + offset) = true)
    (hidx : e.index = coordToIndex (indexRow i + pawnDir piece.color)
      (indexCol i + offset))
    (hci : ci = coordToIndex (indexRow i) (indexCol i + offset))
    (hTOempty : boardGet b e.index = none)
    (hcp : boardGet b ci = some cp)
    (hcpt : cp.type = .pawn)
    (hcpc : cp.color ≠ piece.color) :
    epMoveCand i e.index ci ∈ generatePseudoMoves b (some e) i piece := by
  have hside : epMoveCand i e.index ci ∈
      pawnSide b (some e) i piece (indexRow i) (indexCol i)
        (pawnDir piece.color) offset := by
    unfold epMoveCand
    unfold pawnSide
    rw [if_pos hon]
    dsimp only
    rw [← hidx, hTOempty]
    dsimp only
    unfold pawnEp
    dsimp only
    rw [if_pos (by simp [hecc])]
    rw [← hci, hcp]
    dsimp only
    rw [if_pos (by simp [hcpt]; exact hcpc)]
    simp
  simp only [generatePseudoMoves, hpt, List.mem_append]
  rcases hoff with rfl | rfl
  · exact Or.inl (Or.inr hside)
  · exact Or.inr hside

/-- C7: after an enemy pawn's two-square advance beside the current
player's pawn (the recorded en-passant target), the pawn's legal moves
include the en-passant capture onto the passed-over square, and executing
it removes the enemy pawn from the square it actually occupies while the
capturing pawn lands on the target square (first conjunct, given the
capture does not expose the own king); and the en-passant record is set by
exactly the two-square pawn advances and cleared by every other move
(second conjunct). -/
theorem enPassant_capture_correct :
    (∀ (g : ChessGame) (i ci : Nat) (piece cp : Piece) (e : EPTarget)
      (offset : Int),
      WellFormed g → g.winner = none →
      boardGet g.board i = some piece → piece.type = .pawn →
      piece.color = g.currentPlayer →
      g.enPassantTarget = some e → e.captureColor = piece.color →
      (offset = -1 ∨ offset = 1) →
      isOnBoard (indexRow i + pawnDir piece.color) (indexCol i + offset) = true →
      e.index = coordToIndex (indexRow i + pawnDir piece.color)
        (indexCol i + offset) →
      ci = coordToIndex (indexRow i) (indexCol i + offset) →
      boardGet g.board ci = some cp → cp.type = .pawn →
      cp.color ≠ piece.color →
      checkAfter g.board piece.color i (epMoveCand i e.index ci) = false →
      epMoveCand i e.index ci ∈ ChessGame.getLegalMoves g i ∧
      (∃ (g' : ChessGame) (r : MoveResult),
        ChessGame.move g i e.index = some (g', r) ∧ r.success = true ∧
        r.enPassant = true ∧ r.captured = some cp ∧
        boardGet g'.board ci = none ∧
        boardGet g'.board e.index =
          some (Piece.mk piece.type piece.color true piece.id))) ∧
    (∀ (g g' : ChessGame) (r : MoveResult) (a t : Nat) (piece : Piece),
      WellFormed g →
      ChessGame.move g a t = some (g', r) → r.success = true →
      boardGet g.board a = some piece →
      g'.enPassantTarget =
        (if piece.type = .pawn ∧ (indexRow t - indexRow a).natAbs = 2 then
          some (EPTarget.mk
            (coordToIndex ((indexRow a + indexRow t) / 2) (indexCol a))
            piece.color.opposite)
        else none)) := by
  constructor
  · intro g i ci piece cp e offset hwf hw hp hpt hcol hep hecc hoff hon hidx hci
      hcp hcpt hcpc hnotpin
    have hi64 : i < 64 := by
      have h := boardGet_isSome_lt g.board i piece hp
      rw [hwf.1] at h
      exact h
    have hTOempty : boardGet g.board e.index = none := (hwf.2 e hep).1
    have hmemPs : epMoveCand i e.index ci ∈
        generatePseudoMoves g.board g.enPassantTarget i piece := by
      rw [hep]
      exact pawnEp_complete hpt hecc hoff hon hidx hci hTOempty hcp hcpt hcpc
    have hmemL : epMoveCand i e.index ci ∈
        legalMovesPure g.board g.enPassantTarget i piece piece.color :=
      List.mem_filter.mpr ⟨hmemPs, by simp [hnotpin]⟩
    have hglm : ChessGame.getLegalMoves g i =
        legalMovesPure g.board g.enPassantTarget i piece piece.color := by
      unfold ChessGame.getLegalMoves
      rw [if_neg (by simp [hw]), hp]
      dsimp only
      rw [if_pos hcol, generateLegalMoves_spec hwf.1 hp hwf.epOk]
    refine ⟨by rw [hglm]; exact hmemL, ?_⟩
    have hfindSome : ((legalMovesPure g.board g.enPassantTarget i piece
        piece.color).find? (fun m => m.toSq = e.index)).isSome = true :=
      List.find?_isSome.mpr ⟨_, hmemL, by simp [epMoveCand]⟩
    obtain ⟨tm0, hfind0⟩ := Option.isSome_iff_exists.mp hfindSome
    obtain ⟨g', r, hmv, hs⟩ := move_found_success hwf hw hp hcol hfind0
    refine ⟨g', r, hmv, hs, ?_⟩
    obtain ⟨piece', tm, b4, st, hw', hp', hcol', hfind, htm, happ, hg', hr⟩ :=
      move_success_spec hwf hmv hs
    have hpe : piece = piece' := Option.some_inj.mp (hp.symm.trans hp')
    subst hpe
    have hmem : tm ∈ legalMovesPure g.board g.enPassantTarget i piece
        piece.color := List.mem_of_find?_eq_some hfind
    have hco : CandOk g.board g.enPassantTarget i piece tm :=
      generatePseudoMoves_sound (List.mem_of_mem_filter hmem)
    cases hco with
    | normal hfrom hcastle henp hepc hpromo hdouble hto64 hpawnshape hkingshape =>
      rcases hpawnshape hpt with ⟨hcoleq, -⟩ | ⟨tp, htp, -⟩
      · rw [htm, hidx, indexCol_coordToIndex _ _ hon] at hcoleq
        rcases hoff with rfl | rfl <;> omega
      · rw [htm, hTOempty] at htp
        cases htp
    | castle c rook hfrom hcastle henp hepc hpromo hking hmoved hsafe hrook hrt
        hrc hrm hside =>
      exact absurd hking (by simp [hpt])
    | enpassant e' ci' cp' hfrom hcastle henp hpromo hepc hepe hidx' hcc hpawn
        hcp' hcpt' hcpc' hcoords =>
      have hee : e = e' := Option.some_inj.mp (hep.symm.trans hepe)
      subst hee
      obtain ⟨offset', hoffs', hon', hto', hci'⟩ := hcoords
      have hoffeq : offset = offset' := by
        have h1 : coordToIndex (indexRow i + pawnDir piece.color)
            (indexCol i + offset') = coordToIndex (indexRow i + pawnDir piece.color)
            (indexCol i + offset) := by rw [← hto', htm, hidx]
        have := coordToIndex_inj hon' hon h1
        omega
      subst hoffeq
      have hcieq : ci = ci' := hci.trans hci'.symm
      subst hcieq
      have hcpeq : cp = cp' := Option.some_inj.mp (hcp.symm.trans hcp')
      subst hcpeq
      obtain ⟨hto_ne_i, hci_ne_i, hto_ne_ci, hci64, hto64⟩ :=
        epCand_distinct hi64 hoff hon' hto' hci'
      rw [applyMove_ep_eq hp' hcastle henp hepc] at happ
      rw [Option.some_inj, Prod.mk.injEq] at happ
      obtain ⟨hb4, hst⟩ := happ
      have hb1L : (boardSet g.board i none).length = 64 := by
        rw [boardSet_length]; exact hwf.1
      have hb2L : (boardSet (boardSet g.board i none) ci none).length = 64 := by
        rw [boardSet_length]; exact hb1L
      refine ⟨by rw [hr]; simp [henp], ?_, ?_, ?_⟩
      · rw [hr]
        show st.captured.or st.enPassantCaptured = some cp
        rw [← hst]
        show (Option.or none (boardGet (boardSet g.board i none) ci)) = some cp
        rw [Option.or, boardGet_boardSet_ne _ _ hci_ne_i, hcp]
      · rw [hg']
        show boardGet b4 ci = none
        rw [← hb4, boardGet_boardSet_ne _ _ (Ne.symm hto_ne_ci),
          boardGet_boardSet_self _ _ _ (by omega)]
      · rw [hg']
        show boardGet b4 e.index = _
        rw [← hb4, ← htm, boardGet_boardSet_self _ _ _ (by rw [hb2L]; exact hto64),
          hpromo]
        rfl
  · intro g g' r a t piece hwf hmv hs hp
    obtain ⟨piece', tm, b4, st, hw', hp', hcol', hfind, htm, happ, hg', hr⟩ :=
      move_success_spec hwf hmv hs
    have hpe : piece = piece' := Option.some_inj.mp (hp.symm.trans hp')
    subst hpe
    have hmem : tm ∈ legalMovesPure g.board g.enPassantTarget a piece
        piece.color := List.mem_of_find?_eq_some hfind
    have hco : CandOk g.board g.enPassantTarget a piece tm :=
      generatePseudoMoves_sound (List.mem_of_mem_filter hmem)
    rw [hg']
    show updateEnPassantState piece.type (indexRow a) (indexCol a) (indexRow t)
        piece.color tm = _
    unfold updateEnPassantState
    split
    case isTrue hnp =>
      rw [if_neg (by intro hand; exact hnp hand.1)]
    case isFalse hnp =>
      rw [not_not] at hnp
      split
      case isTrue hcond =>
        rcases hcond with habs | hisep
        · rw [if_neg (by intro hand; exact habs hand.2)]
        · cases hco with
          | normal hfrom hcastle henp hepc hpromo hdouble hto64 hpawnshape
              hkingshape =>
            rw [henp] at hisep
            cases hisep
          | castle c rook hfrom hcastle henp hepc hpromo hking hmoved hsafe hrook
              hrt hrc hrm hside =>
            exact absurd hking (by simp [hnp])
          | enpassant e' ci' cp' hfrom hcastle henp hpromo hepc hepe hidx' hcc
              hpawn hcp' hcpt' hcpc' hcoords =>
            obtain ⟨offset', hoffs', hon', hto', hci'⟩ := hcoords
            have hrowTo : indexRow t = indexRow a + pawnDir piece.color := by
              rw [← htm, hto', indexRow_coordToIndex _ _ hon']
            rw [if_neg]
            intro hand
            have h2 := hand.2
            rw [hrowTo] at h2
            cases hcolr : piece.color <;> rw [hcolr] at h2 <;>
              simp [pawnDir] at h2
      case isFalse hcond =>
        push_neg at hcond
        obtain ⟨hab2, hnep⟩ := hcond
        rw [if_pos ⟨hnp, hab2⟩]

/-- Concrete instance of the C7 scenario: on `epWitGame` the white pawn on
e5 has the en-passant capture d5xd6 among its legal moves, and playing it
removes the black pawn from d5 (27), not from d6 (19). -/
theorem enPassant_capture_correct_witness :
    epMoveCand 28 19 27 ∈ ChessGame.getLegalMoves epWitGame 28 ∧
    (∃ (g' : ChessGame) (r : MoveResult),
      ChessGame.move epWitGame 28 19 = some (g', r) ∧ r.success = true ∧
      r.enPassant = true ∧
      r.captured =
        some { type := .pawn, color := .black, hasMoved := true, id := 2 } ∧
      boardGet g'.board 27 = none ∧
      boardGet g'.board 19 =
        some (Piece.mk PieceType.pawn PieceColor.white true 1)) :=
  enPassant_capture_correct.1 epWitGame 28 27
    { type := .pawn, color := .white, hasMoved := true, id := 1 }
    { type := .pawn, color := .black, hasMoved := true, id := 2 }
    { index := 19, captureColor := .white } (-1)
    (by decide) (by decide) (by decide) (by decide) (by decide) (by decide)
    (by decide) (by decide) (by decide) (by decide) (by decide) (by decide)
    (by decide) (by decide) (by decide)

/-- The shape `applyMove` takes on a castling candidate whose rook-from
square is occupied (chessGame.js:256-284). -/
theorem applyMove_castle_eq {b : Board} {i : Nat} {piece rook : Piece}
    {m : MoveCand} {c : CastleMove}
    (hb : boardGet b i = some piece)
    (hcastle : m.castle = some c) (henp : m.enPassant = false)
    (hrook : boardGet (boardSet b i none) c.rookFrom = some rook) :
    applyMove b i m = some
      (boardSet (boardSet (boardSet (boardSet b i none) c.rookFrom none)
          c.rookTo (some (Piece.mk rook.type rook.color true rook.id)))
        m.toSq
        (some (Piece.mk (m.promotion.getD piece.type) piece.color true piece.id)),
       MoveState.mk
         (Piece.mk (m.promotion.getD piece.type) piece.color true piece.id)
         i m.toSq
         (boardGet (boardSet (boardSet (boardSet b i none) c.rookFrom none)
            c.rookTo (some (Piece.mk rook.type rook.color true rook.id))) m.toSq)
         none none m.promotion piece.type piece.hasMoved
         (some (RookMoveState.mk
           (some (Piece.mk rook.type rook.color true rook.id))
           c.rookFrom c.rookTo rook.hasMoved))) := by
  simp [applyMove, hb, hcastle, henp, hrook]

/-- C6: a king-side castling candidate is generated only with an unmoved,
unattacked king on its home file, an unmoved same-coloured rook on the
h-file, the two squares between them empty, and both transit squares
unattacked (first conjunct); executing a legal king-side castle through one
`move()` call relocates both king and rook, empties both source squares,
and appends exactly one history entry formatted "O-O" (second conjunct). -/
theorem kingside_castle_correct :
    (∀ (b : Board) (ep : Option EPTarget) (i : Nat) (piece : Piece)
      (m : MoveCand) (c : CastleMove),
      m ∈ generatePseudoMoves b ep i piece →
      m.castle = some c → c.side = CastleSide.king → indexCol i = 4 →
      piece.type = PieceType.king ∧ piece.hasMoved = false ∧
      isSquareAttacked b i piece.color.opposite = false ∧
      c.rookFrom = coordToIndex (indexRow i) 7 ∧
      c.rookTo = coordToIndex (indexRow i) 5 ∧
      m.toSq = coordToIndex (indexRow i) 6 ∧
      (∃ rook, boardGet b c.rookFrom = some rook ∧
        rook.type = PieceType.rook ∧ rook.color = piece.color ∧
        rook.hasMoved = false) ∧
      boardGet b (coordToIndex (indexRow i) 5) = none ∧
      boardGet b (coordToIndex (indexRow i) 6) = none ∧
      isSquareAttacked b (coordToIndex (indexRow i) 5) piece.color.opposite
        = false ∧
      isSquareAttacked b (coordToIndex (indexRow i) 6) piece.color.opposite
        = false) ∧
    (∀ (g : ChessGame) (i : Nat) (piece : Piece) (m : MoveCand)
      (c : CastleMove),
      WellFormed g → g.winner = none →
      boardGet g.board i = some piece → piece.color = g.currentPlayer →
      m ∈ ChessGame.getLegalMoves g i →
      m.castle = some c → c.side = CastleSide.king →
      ∃ (g' : ChessGame) (r : MoveResult) (rook : Piece),
        boardGet g.board c.rookFrom = some rook ∧
        ChessGame.move g i m.toSq = some (g', r) ∧ r.success = true ∧
        r.castle = some c ∧
        boardGet g'.board m.toSq =
          some (Piece.mk PieceType.king piece.color true piece.id) ∧
        boardGet g'.board c.rookTo =
          some (Piece.mk PieceType.rook piece.color true rook.id) ∧
        boardGet g'.board i = none ∧
        boardGet g'.board c.rookFrom = none ∧
        ∃ (chk cm sm : Bool),
          g'.moveHistory = g.moveHistory ++
            [capitalize (colorName piece.color) ++ ": " ++ "O-O" ++
              historySuffix chk cm sm]) := by
  constructor
  · intro b ep i piece m c hm hmc hmk hcol4
    have hco := generatePseudoMoves_sound hm
    cases hco with
    | normal hfrom hcastle henp hepc hpromo hdouble hto64 hpawnshape
        hkingshape =>
      rw [hmc] at hcastle
      exact Option.noConfusion hcastle
    | enpassant e ci cp hfrom hcastle henp hpromo hepc hepe hidx hcc hpawn hcp
        hcpt hcpc hcoords =>
      rw [hmc] at hcastle
      exact Option.noConfusion hcastle
    | castle c0 rook hfrom hcastle henp hepc hpromo hking hmoved hsafe hrook
        hrt hrc hrm hside =>
      have hc0 : c = c0 := Option.some_inj.mp (hmc.symm.trans hcastle)
      subst hc0
      rw [castleSideFacts, hmk] at hside
      dsimp only at hside
      obtain ⟨hrf, hrt2, hts, hon1, hon2, hemp1, hemp2, hatk1, hatk2⟩ := hside
      rw [hcol4] at hrt2 hts hon1 hon2 hemp1 hemp2 hatk1 hatk2
      norm_num at hrt2 hts hemp1 hemp2 hatk1 hatk2
      exact ⟨hking, hmoved, hsafe, hrf, hrt2, hts, ⟨rook, hrook, hrt, hrc, hrm⟩,
        hemp1, hemp2, hatk1, hatk2⟩
  · intro g i piece m c hwf hw hp hcol hm hmc hmk
    have hi64 : i < 64 := by
      have h := boardGet_isSome_lt g.board i piece hp
      rw [hwf.1] at h
      exact h
    have honI : isOnBoard (indexRow i) (indexCol i) = true := by
      simp only [isOnBoard, indexRow, indexCol, decide_eq_true_eq]
      omega
    have hIeq : coordToIndex (indexRow i) (indexCol i) = i :=
      coordToIndex_indexRow_indexCol i hi64
    have hglm : ChessGame.getLegalMoves g i =
        legalMovesPure g.board g.enPassantTarget i piece piece.color := by
      unfold ChessGame.getLegalMoves
      rw [if_neg (by simp [hw]), hp]
      dsimp only
      rw [if_pos hcol, generateLegalMoves_spec hwf.1 hp hwf.epOk]
    rw [hglm] at hm
    have hcoM := generatePseudoMoves_sound (List.mem_of_mem_filter hm)
    cases hcoM with
    | normal hfromM hcastleM henpM hepcM hpromoM hdoubleM hto64M hpawnshapeM
        hkingshapeM =>
      rw [hmc] at hcastleM
      exact Option.noConfusion hcastleM
    | enpassant e ci cp hfromM hcastleM henpM hpromoM hepcM hepeM hidxM hccM
        hpawnM hcpM hcptM hcpcM hcoordsM =>
      rw [hmc] at hcastleM
      exact Option.noConfusion hcastleM
    | castle c0 rookM hfromM hcastleM henpM hepcM hpromoM hkingM hmovedM
        hsafeM hrookM hrtyM hrcoM hrmM hsideM =>
      have hc0 : c = c0 := Option.some_inj.mp (hmc.symm.trans hcastleM)
      subst hc0
      rw [castleSideFacts, hmk] at hsideM
      dsimp only at hsideM
      obtain ⟨hrfM, hrtM, htsM, hon1M, hon2M, hemp1M, hemp2M, hatk1M, hatk2M⟩ :=
        hsideM
      have hto64m : m.toSq < 64 := by
        rw [htsM]
        exact coordToIndex_lt_64 _ _ hon2M
      have hrt64 : c.rookTo < 64 := by
        rw [hrtM]
        exact coordToIndex_lt_64 _ _ hon1M
      have hrf64 : c.rookFrom < 64 := by
        have h := boardGet_isSome_lt g.board c.rookFrom rookM hrookM
        rw [hwf.1] at h
        exact h
      have hto_ne_i : m.toSq ≠ i := by
        intro h
        have h1 : coordToIndex (indexRow i) (indexCol i + 2) =
            coordToIndex (indexRow i) (indexCol i) := by
          rw [← htsM, hIeq]
          exact h
        have := (coordToIndex_inj hon2M honI h1).2
        omega
      have hrt_ne_i : c.rookTo ≠ i := by
        intro h
        have h1 : coordToIndex (indexRow i) (indexCol i + 1) =
            coordToIndex (indexRow i) (indexCol i) := by
          rw [← hrtM, hIeq]
          exact h
        have := (coordToIndex_inj hon1M honI h1).2
        omega
      have hto_ne_rt : m.toSq ≠ c.rookTo := by
        intro h
        rw [htsM, hrtM] at h
        have := (coordToIndex_inj hon2M hon1M h).2
        omega
      have hrf_ne_i : c.rookFrom ≠ i := by
        intro h
        rw [h, hp] at hrookM
        have hpr := Option.some_inj.mp hrookM
        rw [← hpr, hkingM] at hrtyM
        exact PieceType.noConfusion hrtyM
      have hrt_none : boardGet g.board c.rookTo = none := by
        rw [hrtM]
        exact hemp1M
      have hto_none : boardGet g.board m.toSq = none := by
        rw [htsM]
        exact hemp2M
      have hrf_ne_rt : c.rookFrom ≠ c.rookTo := by
        intro h
        rw [h, hrt_none] at hrookM
        exact Option.noConfusion hrookM
      have hto_ne_rf : m.toSq ≠ c.rookFrom := by
        intro h
        rw [← h, hto_none] at hrookM
        exact Option.noConfusion hrookM
      have hfindSome : ((legalMovesPure g.board g.enPassantTarget i piece
          piece.color).find? (fun x => x.toSq = m.toSq)).isSome = true :=
        List.find?_isSome.mpr ⟨m, hm, by simp⟩
      obtain ⟨tm0, hfind0⟩ := Option.isSome_iff_exists.mp hfindSome
      obtain ⟨g', r, hmv, hs⟩ := move_found_success hwf hw hp hcol hfind0
      refine ⟨g', r, rookM, hrookM, hmv, hs, ?_⟩
      obtain ⟨piece', tm, b4, st, hw', hp', hcol', hfind, htm, happ, hg', hr⟩ :=
        move_success_spec hwf hmv hs
      have hpe : piece = piece' := Option.some_inj.mp (hp.symm.trans hp')
      subst hpe
      have hmem : tm ∈ legalMovesPure g.board g.enPassantTarget i piece
          piece.color := List.mem_of_find?_eq_some hfind
      have hco : CandOk g.board g.enPassantTarget i piece tm :=
        generatePseudoMoves_sound (List.mem_of_mem_filter hmem)
      cases hco with
      | normal hfrom' hcastle' henp' hepc' hpromo' hdouble' hto64' hpawnshape'
          hkingshape' =>
        exfalso
        have h2 := (hkingshape' hkingM).2
        rw [htm, htsM, indexCol_coordToIndex _ _ hon2M] at h2
        omega
      | enpassant e ci cp hfrom' hcastle' henp' hpromo' hepc' hepe' hidx' hcc'
          hpawn' hcp' hcpt' hcpc' hcoords' =>
        exfalso
        rw [hkingM] at hpawn'
        exact PieceType.noConfusion hpawn'
      | castle c' rookT hfrom' hcastle' henp' hepc' hpromo' hking' hmoved'
          hsafe' hrook' hrty' hrco' hrm' hside' =>
        cases hcs' : c'.side with
        | queen =>
          exfalso
          rw [castleSideFacts, hcs'] at hside'
          dsimp only at hside'
          obtain ⟨-, -, hts', -, hon2', -⟩ := hside'
          rw [htm, htsM] at hts'
          have := (coordToIndex_inj hon2M hon2' hts').2
          omega
        | king =>
          rw [castleSideFacts, hcs'] at hside'
          dsimp only at hside'
          obtain ⟨hrf', hrt2', hts', hon1', hon2', hemp1', hemp2', hatk1',
            hatk2'⟩ := hside'
          have h1 : c.side = c'.side := by rw [hcs', hmk]
          have h2 : c.rookFrom = c'.rookFrom := by rw [hrf', hrfM]
          have h3 : c.rookTo = c'.rookTo := by rw [hrt2', hrtM]
          have hceq : c = c' := by
            cases c
            cases c'
            dsimp only at h1 h2 h3
            rw [h1, h2, h3]
          subst hceq
          have hrookeq : rookM = rookT :=
            Option.some_inj.mp (hrookM.symm.trans hrook')
          subst hrookeq
          have hrookB1 : boardGet (boardSet g.board i none) c.rookFrom =
              some rookM := by
            rw [boardGet_boardSet_ne _ _ hrf_ne_i]
            exact hrookM
          rw [applyMove_castle_eq hp hcastle' henp' hrookB1] at happ
          rw [Option.some_inj, Prod.mk.injEq] at happ
          obtain ⟨hb4, hst⟩ := happ
          rw [htm, hpromo'] at hb4
          simp only [Option.getD_none] at hb4
          rw [hkingM, hrtyM, hrcoM] at hb4
          have hlen1 : (boardSet g.board i none).length = 64 := by
            rw [boardSet_length]
            exact hwf.1
          have hlen2 : (boardSet (boardSet g.board i none) c.rookFrom
              none).length = 64 := by
            rw [boardSet_length]
            exact hlen1
          have hlen3 : (boardSet (boardSet (boardSet g.board i none) c.rookFrom
              none) c.rookTo (some (Piece.mk PieceType.rook piece.color true
              rookM.id))).length = 64 := by
            rw [boardSet_length]
            exact hlen2
          refine ⟨?_, ?_, ?_, ?_, ?_, ?_⟩
          · rw [hr]
            show tm.castle = some c
            exact hcastle'
          · rw [hg']
            show boardGet b4 m.toSq = _
            rw [← hb4]
            exact boardGet_boardSet_self _ _ _ (by rw [hlen3]; exact hto64m)
          · rw [hg']
            show boardGet b4 c.rookTo = _
            rw [← hb4, boardGet_boardSet_ne _ _ (Ne.symm hto_ne_rt)]
            exact boardGet_boardSet_self _ _ _ (by rw [hlen2]; exact hrt64)
          · rw [hg']
            show boardGet b4 i = none
            rw [← hb4, boardGet_boardSet_ne _ _ (Ne.symm hto_ne_i),
              boardGet_boardSet_ne _ _ (Ne.symm hrt_ne_i),
              boardGet_boardSet_ne _ _ (Ne.symm hrf_ne_i)]
            exact boardGet_boardSet_self _ _ _ (by rw [hwf.1]; exact hi64)
          · rw [hg']
            show boardGet b4 c.rookFrom = none
            rw [← hb4, boardGet_boardSet_ne _ _ (Ne.symm hto_ne_rf),
              boardGet_boardSet_ne _ _ hrf_ne_rt]
            exact boardGet_boardSet_self _ _ _ (by rw [hlen1]; exact hrf64)
          · rw [hg']
            refine ⟨isKingInCheck b4 piece.color.opposite,
              !hasAnyPure b4 (updateEnPassantState piece.type (indexRow i)
                (indexCol i) (indexRow m.toSq) piece.color tm)
                piece.color.opposite && isKingInCheck b4 piece.color.opposite,
              !hasAnyPure b4 (updateEnPassantState piece.type (indexRow i)
                (indexCol i) (indexRow m.toSq) piece.color tm)
                piece.color.opposite && !isKingInCheck b4 piece.color.opposite,
              ?_⟩
            show g.moveHistory ++ [createHistoryEntry piece.type piece.color
              i m.toSq _ tm.promotion _ _ _ (tm.castle.map (·.side))
              tm.enPassant] = _
            rw [hcastle']
            show g.moveHistory ++ [createHistoryEntry piece.type piece.color
              i m.toSq _ tm.promotion _ _ _ (some c.side) tm.enPassant] = _
            rw [hmk]
            simp only [createHistoryEntry]

/-- Concrete instance of the C6 execution conjunct: on `castleWitGame`,
castling king-side via one `move` call puts the king on g1, the rook on f1,
empties e1 and h1, and appends the single "O-O" history entry. -/
theorem kingside_castle_correct_witness :
    ∃ (g' : ChessGame) (r : MoveResult) (rook : Piece),
      boardGet castleWitGame.board 63 = some rook ∧
      ChessGame.move castleWitGame 60 62 = some (g', r) ∧ r.success = true ∧
      r.castle = some (CastleMove.mk CastleSide.king 63 61) ∧
      boardGet g'.board 62 =
        some (Piece.mk PieceType.king PieceColor.white true 1) ∧
      boardGet g'.board 61 =
        some (Piece.mk PieceType.rook PieceColor.white true rook.id) ∧
      boardGet g'.board 60 = none ∧
      boardGet g'.board 63 = none ∧
      ∃ (chk cm sm : Bool),
        g'.moveHistory = castleWitGame.moveHistory ++
          [capitalize (colorName PieceColor.white) ++ ": " ++ "O-O" ++
            historySuffix chk cm sm] :=
  kingside_castle_correct.2 castleWitGame 60
    (Piece.mk .king .white false 1) castleWitMove
    (CastleMove.mk CastleSide.king 63 61)
    (by decide) rfl (by decide) rfl (by decide) rfl rfl

/-- C1: the Rules Engine exposes `getFEN()` returning a FEN string for the
current position — the orchestrator's engine-move request obtains exactly
that string, and on the initial position it is the standard starting FEN
(board layout and side to move). -/
theorem getFEN_exposed :
    (∀ g : ChessGame, requestEngineMoveFen g = ChessGame.getFEN g) ∧
    ChessGame.getFEN ChessGame.initial =
      "rnbqkbnr/pppppppp/8/8/8/8/PPPPPPPP/RNBQKBNR w" :=
  ⟨fun _ => rfl, by decide⟩

/-- C2: in single-player mode, after a successful human move whose result
reports neither checkmate nor stalemate and leaves no winner, the
`processMoveResult` dispatch invokes `requestEngineMove`; and when the
engine is present and ready and owns the turn, that call sets the
`engineThinking` flag and requests a best move for the current position's
FEN. -/
theorem processMoveResult_requests_engine_move (app : ChessApp)
    (result : OrchMoveResult)
    (hsp : app.singlePlayer = true)
    (hmc : result.movedColor = app.humanColor)
    (hcm : result.checkmate = false)
    (hsm : result.stalemate = false)
    (hw : app.game.winner = none) :
    processMoveResultDispatch app result = EngineAction.requestMove ∧
    (app.hasEngine = true → app.engineReady = true →
      app.game.currentPlayer = app.engineColor →
      (requestEngineMoveStep app).1.engineThinking = true ∧
      (requestEngineMoveStep app).2 = some (ChessGame.getFEN app.game)) := by
  constructor
  · simp [processMoveResultDispatch, hsp, hmc, hcm, hsm, hw]
  · intro he hr hcp
    simp [requestEngineMoveStep, hsp, he, hr, hcp, hw]

/-- Concrete instance of the C2 dispatch on `engineTurnApp`. -/
theorem processMoveResult_requests_engine_move_witness :
    processMoveResultDispatch engineTurnApp humanMoveResult =
      EngineAction.requestMove ∧
    (engineTurnApp.hasEngine = true → engineTurnApp.engineReady = true →
      engineTurnApp.game.currentPlayer = engineTurnApp.engineColor →
      (requestEngineMoveStep engineTurnApp).1.engineThinking = true ∧
      (requestEngineMoveStep engineTurnApp).2 =
        some (ChessGame.getFEN engineTurnApp.game)) :=
  processMoveResult_requests_engine_move engineTurnApp humanMoveResult
    rfl rfl rfl rfl (by decide)

theorem runReq_resolvedMove (mv : Option String) (evs : List EngLine) :
    runReq (ReqState.resolvedMove mv) evs = (ReqState.resolvedMove mv, 0) := by
  induction evs with
  | nil => rfl
  | cons e evs ih =>
    have hstep : reqStep (ReqState.resolvedMove mv) e =
        (ReqState.resolvedMove mv, 0) := by cases e <;> rfl
    simp [runReq, hstep, ih]

theorem runReq_rejected (evs : List EngLine) :
    runReq ReqState.rejected evs = (ReqState.rejected, 0) := by
  induction evs with
  | nil => rfl
  | cons e evs ih =>
    have hstep : reqStep ReqState.rejected e = (ReqState.rejected, 0) := by
      cases e <;> rfl
    simp [runReq, hstep, ih]

theorem runReq_settles_le_one (evs : List EngLine) (s : ReqState) :
    (runReq s evs).2 ≤ 1 := by
  induction evs generalizing s with
  | nil => simp [runReq]
  | cons e evs ih =>
    cases s <;> cases e <;>
      simp [runReq, reqStep, runReq_resolvedMove, runReq_rejected, ih]

/-- C10: a best-move request issued before the `uciok`/`readyok` handshake
still resolves once the handshake completes and a `bestmove` line arrives
(it queues on initialization instead of racing it); calling `stop()` while
a request is searching rejects its promise exactly once, and no later
`bestmove` line or second `stop()` ever settles it again; over every event
sequence a request's promise settles at most once. -/
theorem engine_request_lifecycle :
    (∀ mv : Option String,
      runReq ReqState.awaitingUciok
        [EngLine.uciok, EngLine.readyok, EngLine.readyok, EngLine.bestmove mv]
        = (ReqState.resolvedMove mv, 1)) ∧
    (∀ evs : List EngLine,
      runReq ReqState.searching (EngLine.stopCall :: evs) =
        (ReqState.rejected, 1)) ∧
    (∀ evs : List EngLine, (runReq ReqState.awaitingUciok evs).2 ≤ 1) := by
  refine ⟨fun mv => rfl, fun evs => ?_, fun evs => runReq_settles_le_one evs _⟩
  show ((runReq ReqState.rejected evs).1, 1 + (runReq ReqState.rejected evs).2)
    = (ReqState.rejected, 1)
  rw [runReq_rejected]
  rfl

end Mallo
